import Mathlib

set_option maxHeartbeats 1000000

/- Verification development for the signpost DNS resolver.

   The Rust sources (src/packet.rs, src/main.rs) are shallowly embedded below.
   Conventions of the embedding:
   * Rust strings are represented as their UTF-8 byte sequences, of type
     List Nat.  Splitting a name on the dot character is List.splitOn 46.
     The Rust expression String.from_utf8_lossy(bytes).to_lowercase(), applied
     to the raw label bytes read from the wire, is modelled by lowerBytes,
     which performs the ASCII case fold byte by byte; this agrees with the
     Rust behaviour on ASCII bytes, and all well-formedness predicates used
     in the theorems below restrict names to ASCII bytes.
   * Machine integers are Nat; every Rust cast site gets an explicit
     reduction (as u8 becomes % 256, as u16 becomes % 65536).
   * The 512-octet array is a function Nat → Nat together with a cursor;
     fallible operations return Except DnsError.  A Rust runtime panic
     (out-of-bounds slice index) is modelled by the distinguished error
     DnsError.panicked so that it stays observable and distinct from the
     "end of buffer" error value the code returns deliberately.
   * read_qname in the source is a loop; it is modelled with an explicit
     fuel argument (readQnameFuel) plus the distinguished error
     DnsError.fuelOut, and the development proves that with the fuel used
     by the wrapper the fuelOut outcome is unreachable.  The returned
     QnameOut also carries the number of compression jumps that were
     followed, as ghost instrumentation for the loop-protection theorems.
-/

namespace Signpost

inductive DnsError where
  | outOfBounds
  | jumpLimit
  | labelTooLong
  | panicked
  | fuelOut
  deriving DecidableEq

/-- The 512-octet buffer contents. -/
abbrev Buf := Nat → Nat

def setByte (f : Buf) (i v : Nat) : Buf := fun j => if j = i then v else f j

/-- BytePacketBuffer from src/packet.rs: a 512 byte array plus a cursor. -/
structure BytePacketBuffer where
  buf : Buf
  pos : Nat

namespace BytePacketBuffer

/-- BytePacketBuffer::new. -/
def new : BytePacketBuffer := ⟨fun _ => 0, 0⟩

/-- BytePacketBuffer::skip — note: the source performs no bounds check. -/
def skip (b : BytePacketBuffer) (amount : Nat) : Except DnsError BytePacketBuffer :=
  .ok { b with pos := b.pos + amount }

/-- BytePacketBuffer::set_position — no bounds check in the source. -/
def set_position (b : BytePacketBuffer) (pos : Nat) : Except DnsError BytePacketBuffer :=
  .ok { b with pos := pos }

/-- BytePacketBuffer::end_of_buf. -/
def end_of_buf (b : BytePacketBuffer) : Bool := b.pos ≥ 512

/-- BytePacketBuffer::read_u8. -/
def read_u8 (b : BytePacketBuffer) : Except DnsError (Nat × BytePacketBuffer) :=
  if b.pos ≥ 512 then .error .outOfBounds
  else .ok (b.buf b.pos, { b with pos := b.pos + 1 })

/-- BytePacketBuffer::read_u16 (big endian). -/
def read_u16 (b : BytePacketBuffer) : Except DnsError (Nat × BytePacketBuffer) :=
  match b.read_u8 with
  | .error e => .error e
  | .ok (hi, b1) =>
    match b1.read_u8 with
    | .error e => .error e
    | .ok (lo, b2) => .ok ((hi <<< 8) ||| lo, b2)

/-- BytePacketBuffer::read_u32 (big endian). -/
def read_u32 (b : BytePacketBuffer) : Except DnsError (Nat × BytePacketBuffer) :=
  match b.read_u8 with
  | .error e => .error e
  | .ok (b0, b1) =>
    match b1.read_u8 with
    | .error e => .error e
    | .ok (b1v, b2) =>
      match b2.read_u8 with
      | .error e => .error e
      | .ok (b2v, b3) =>
        match b3.read_u8 with
        | .error e => .error e
        | .ok (b3v, b4) =>
          .ok ((b0 <<< 24) ||| (b1v <<< 16) ||| (b2v <<< 8) ||| b3v, b4)

/-- BytePacketBuffer::peek. -/
def peek (b : BytePacketBuffer) (pos : Nat) : Except DnsError Nat :=
  if pos ≥ 512 then .error .outOfBounds else .ok (b.buf pos)

/-- BytePacketBuffer::peek_many — the source rejects start + len ≥ 512
    (strict bound: the final octet is unreachable through this call). -/
def peek_many (b : BytePacketBuffer) (start len : Nat) : Except DnsError (List Nat) :=
  if start + len ≥ 512 then .error .outOfBounds
  else .ok ((List.range len).map fun i => b.buf (start + i))

/-- BytePacketBuffer::set_u8_at — the source checks pos > 512 only, so a
    call with pos = 512 passes the check and the Rust indexing
    self.buf[pos] panics: that outcome is the panicked error. -/
def set_u8_at (b : BytePacketBuffer) (pos value : Nat) : Except DnsError BytePacketBuffer :=
  if pos > 512 then .error .outOfBounds
  else if pos < 512 then .ok { b with buf := setByte b.buf pos (value % 256) }
  else .error .panicked

/-- BytePacketBuffer::set_u16_at. -/
def set_u16_at (b : BytePacketBuffer) (pos value : Nat) : Except DnsError BytePacketBuffer :=
  match b.set_u8_at pos ((value >>> 8) % 256) with
  | .error e => .error e
  | .ok b1 =>
    match b1.set_u8_at (pos + 1) ((value &&& 0xFF) % 256) with
    | .error e => .error e
    | .ok b2 => .ok b2

/-- BytePacketBuffer::write. -/
def write (b : BytePacketBuffer) (value : Nat) : Except DnsError BytePacketBuffer :=
  if b.pos ≥ 512 then .error .outOfBounds
  else .ok { buf := setByte b.buf b.pos (value % 256), pos := b.pos + 1 }

/-- BytePacketBuffer::write_u8. -/
def write_u8 (b : BytePacketBuffer) (value : Nat) : Except DnsError BytePacketBuffer :=
  b.write value

/-- BytePacketBuffer::write_u16. -/
def write_u16 (b : BytePacketBuffer) (value : Nat) : Except DnsError BytePacketBuffer :=
  match b.write ((value >>> 8) % 256) with
  | .error e => .error e
  | .ok b1 => b1.write ((value &&& 0xFF) % 256)

/-- BytePacketBuffer::write_u32. -/
def write_u32 (b : BytePacketBuffer) (value : Nat) : Except DnsError BytePacketBuffer :=
  match b.write (((value >>> 24) &&& 0xFF) % 256) with
  | .error e => .error e
  | .ok b1 =>
    match b1.write (((value >>> 16) &&& 0xFF) % 256) with
    | .error e => .error e
    | .ok b2 =>
      match b2.write (((value >>> 8) &&& 0xFF) % 256) with
      | .error e => .error e
      | .ok b3 => b3.write (((value >>> 0) &&& 0xFF) % 256)

end BytePacketBuffer

/-- The ASCII action of the Rust pipeline from_utf8_lossy + to_lowercase on
    one byte. -/
def toLowerByte (b : Nat) : Nat := if 65 ≤ b ∧ b ≤ 90 then b + 32 else b

/-- Byte-wise lowercasing of a name. -/
def lowerBytes (l : List Nat) : List Nat := l.map toLowerByte

/-- Outcome of read_qname: the accumulated name bytes, the final value of
    the buffer cursor (self.pos), and the number of compression jumps that
    were followed (ghost instrumentation). -/
inductive QnameOut where
  | ok (out : List Nat) (selfPos : Nat) (jumps : Nat)
  | err (e : DnsError) (selfPos : Nat) (jumps : Nat)
  deriving DecidableEq

/-- The loop body of BytePacketBuffer::read_qname, with an explicit fuel
    argument.  pos is the local read position, jumped and curr mirror the
    source locals, selfPos is the buffer cursor (self.pos), out and delim
    mirror the accumulating output string and delimiter. -/
def readQnameGo (buf : Buf) : Nat → Nat → Bool → Nat → Nat → List Nat → List Nat → QnameOut
  | 0, _, _, curr, selfPos, _, _ => .err .fuelOut selfPos curr
  | fuel + 1, pos, jumped, curr, selfPos, out, delim =>
    if curr > 5 then .err .jumpLimit selfPos curr
    else if pos ≥ 512 then .err .outOfBounds selfPos curr
    else
      let len := buf pos
      if len &&& 0xC0 = 0xC0 then
        -- compression pointer
        let selfPos1 := if !jumped then pos + 2 else selfPos
        if pos + 1 ≥ 512 then .err .outOfBounds selfPos1 curr
        else
          let b2 := buf (pos + 1)
          let offset := ((len ^^^ 0xC0) <<< 8) ||| b2
          readQnameGo buf fuel offset true (curr + 1) selfPos1 out delim
      else
        -- plain label
        let pos1 := pos + 1
        if len = 0 then
          .ok out (if !jumped then pos1 else selfPos) curr
        else if pos1 + len ≥ 512 then .err .outOfBounds selfPos curr
        else
          let lbl := (List.range len).map fun i => buf (pos1 + i)
          readQnameGo buf fuel (pos1 + len) jumped curr selfPos
            (out ++ delim ++ lowerBytes lbl) [46]

/-- Fuel bound that is provably sufficient for readQnameGo. -/
def readQnameFuel : Nat := 4096

/-- BytePacketBuffer::read_qname.  On success returns the name accumulated
    onto out and the buffer with its updated cursor. -/
def BytePacketBuffer.read_qname (b : BytePacketBuffer) (out : List Nat) :
    Except DnsError (List Nat × BytePacketBuffer) :=
  match readQnameGo b.buf readQnameFuel b.pos false 0 b.pos out [] with
  | .ok o p _ => .ok (o, { b with pos := p })
  | .err e _ _ => .error e

/-- Auxiliary recursion of BytePacketBuffer::write_qname: write the byte
    sequence of one label. -/
def writeBytes (b : BytePacketBuffer) : List Nat → Except DnsError BytePacketBuffer
  | [] => .ok b
  | x :: xs =>
    match b.write_u8 x with
    | .error e => .error e
    | .ok b1 => writeBytes b1 xs

/-- The label loop of BytePacketBuffer::write_qname. -/
def writeLabels (b : BytePacketBuffer) : List (List Nat) → Except DnsError BytePacketBuffer
  | [] => .ok b
  | label :: rest =>
    if label.length > 0x3f then .error .labelTooLong
    else
      match b.write_u8 label.length with
      | .error e => .error e
      | .ok b1 =>
        match writeBytes b1 label with
        | .error e => .error e
        | .ok b2 => writeLabels b2 rest

/-- BytePacketBuffer::write_qname: length-prefixed labels obtained by
    splitting on the dot, then a terminating zero octet. -/
def BytePacketBuffer.write_qname (b : BytePacketBuffer) (qname : List Nat) :
    Except DnsError BytePacketBuffer :=
  match writeLabels b (qname.splitOn 46) with
  | .error e => .error e
  | .ok b1 => b1.write_u8 0

/-- ResultCode from src/packet.rs. -/
inductive ResultCode where
  | NOERROR
  | FORMERR
  | SERVFAIL
  | NXDOMAIN
  | NOTIMP
  | REFUSED
  deriving DecidableEq

/-- The discriminant values of ResultCode (the rescode as u8 cast). -/
def ResultCode.toNum : ResultCode → Nat
  | .NOERROR => 0
  | .FORMERR => 1
  | .SERVFAIL => 2
  | .NXDOMAIN => 3
  | .NOTIMP => 4
  | .REFUSED => 5

/-- ResultCode::from_num — unknown codes fold to NOERROR. -/
def ResultCode.from_num (num : Nat) : ResultCode :=
  if num = 1 then .FORMERR
  else if num = 2 then .SERVFAIL
  else if num = 3 then .NXDOMAIN
  else if num = 4 then .NOTIMP
  else if num = 5 then .REFUSED
  else .NOERROR

/-- QueryType from src/packet.rs. -/
inductive QueryType where
  | UNKNOWN (n : Nat)
  | A
  | NS
  | CNAME
  | MX
  | AAAA
  deriving DecidableEq

/-- QueryType::to_num. -/
def QueryType.to_num : QueryType → Nat
  | .UNKNOWN x => x
  | .A => 1
  | .NS => 2
  | .CNAME => 5
  | .MX => 15
  | .AAAA => 28

/-- QueryType::from_num. -/
def QueryType.from_num (num : Nat) : QueryType :=
  if num = 1 then .A
  else if num = 2 then .NS
  else if num = 5 then .CNAME
  else if num = 15 then .MX
  else if num = 28 then .AAAA
  else .UNKNOWN num

/-- std::net::Ipv4Addr, as its four octets. -/
structure Ipv4Addr where
  o0 : Nat
  o1 : Nat
  o2 : Nat
  o3 : Nat
  deriving DecidableEq

/-- std::net::Ipv6Addr, as its eight 16-bit segments. -/
structure Ipv6Addr where
  s0 : Nat
  s1 : Nat
  s2 : Nat
  s3 : Nat
  s4 : Nat
  s5 : Nat
  s6 : Nat
  s7 : Nat
  deriving DecidableEq

/-- DNSRecord from src/packet.rs.  Names are UTF-8 byte lists. -/
inductive DNSRecord where
  | UNKNOWN (domain : List Nat) (qtype : Nat) (data_len : Nat) (ttl : Nat)
  | A (domain : List Nat) (addr : Ipv4Addr) (ttl : Nat)
  | NS (domain : List Nat) (host : List Nat) (ttl : Nat)
  | CNAME (domain : List Nat) (host : List Nat) (ttl : Nat)
  | MX (domain : List Nat) (priority : Nat) (host : List Nat) (ttl : Nat)
  | AAAA (domain : List Nat) (addr : Ipv6Addr) (ttl : Nat)
  deriving DecidableEq

/-- DNSHeader from src/packet.rs (the field name cheching_disabled keeps
    the spelling of the source). -/
structure DNSHeader where
  id : Nat
  recursion_desired : Bool
  truncated_message : Bool
  authoritative_answer : Bool
  opcode : Nat
  response : Bool
  rescode : ResultCode
  cheching_disabled : Bool
  authed_data : Bool
  z : Bool
  recursion_available : Bool
  questions : Nat
  answers : Nat
  authoritative_entries : Nat
  resource_entries : Nat
  deriving DecidableEq

/-- DNSHeader::new. -/
def DNSHeader.new : DNSHeader where
  id := 0
  recursion_desired := false
  truncated_message := false
  authoritative_answer := false
  opcode := 0
  response := false
  rescode := .NOERROR
  cheching_disabled := false
  authed_data := false
  z := false
  recursion_available := false
  questions := 0
  answers := 0
  authoritative_entries := 0
  resource_entries := 0

def boolToNat (b : Bool) : Nat := if b then 1 else 0

/-- DNSHeader::read. -/
def DNSHeader.read (b : BytePacketBuffer) : Except DnsError (DNSHeader × BytePacketBuffer) :=
  match b.read_u16 with
  | .error e => .error e
  | .ok (id, b1) =>
    match b1.read_u16 with
    | .error e => .error e
    | .ok (flags, b2) =>
      let a := (flags >>> 8) % 256
      let bb := (flags &&& 0xFF) % 256
      match b2.read_u16 with
      | .error e => .error e
      | .ok (questions, b3) =>
        match b3.read_u16 with
        | .error e => .error e
        | .ok (answers, b4) =>
          match b4.read_u16 with
          | .error e => .error e
          | .ok (authoritative_entries, b5) =>
            match b5.read_u16 with
            | .error e => .error e
            | .ok (resource_entries, b6) =>
              .ok ({ id := id
                     recursion_desired := (a &&& (1 <<< 0)) > 0
                     truncated_message := (a &&& (1 <<< 1)) > 0
                     authoritative_answer := (a &&& (1 <<< 2)) > 0
                     opcode := (a >>> 3) &&& 0x0F
                     response := (a &&& (1 <<< 7)) > 0
                     rescode := ResultCode.from_num (bb &&& 0x0F)
                     cheching_disabled := (bb &&& (1 <<< 4)) > 0
                     authed_data := (bb &&& (1 <<< 5)) > 0
                     z := (bb &&& (1 <<< 6)) > 0
                     recursion_available := (bb &&& (1 <<< 7)) > 0
                     questions := questions
                     answers := answers
                     authoritative_entries := authoritative_entries
                     resource_entries := resource_entries }, b6)

/-- The first flags octet written by DNSHeader::write. -/
def DNSHeader.flagsA (h : DNSHeader) : Nat :=
  boolToNat h.recursion_desired
    ||| (boolToNat h.truncated_message <<< 1)
    ||| (boolToNat h.authoritative_answer <<< 2)
    ||| ((h.opcode <<< 3) % 256)
    ||| (boolToNat h.response <<< 7)

/-- The second flags octet written by DNSHeader::write. -/
def DNSHeader.flagsB (h : DNSHeader) : Nat :=
  h.rescode.toNum
    ||| (boolToNat h.cheching_disabled <<< 4)
    ||| (boolToNat h.authed_data <<< 5)
    ||| (boolToNat h.z <<< 6)
    ||| (boolToNat h.recursion_available <<< 7)

/-- DNSHeader::write. -/
def DNSHeader.write (h : DNSHeader) (b : BytePacketBuffer) : Except DnsError BytePacketBuffer :=
  match b.write_u16 h.id with
  | .error e => .error e
  | .ok b1 =>
    match b1.write_u8 h.flagsA with
    | .error e => .error e
    | .ok b2 =>
      match b2.write_u8 h.flagsB with
      | .error e => .error e
      | .ok b3 =>
        match b3.write_u16 h.questions with
        | .error e => .error e
        | .ok b4 =>
          match b4.write_u16 h.answers with
          | .error e => .error e
          | .ok b5 =>
            match b5.write_u16 h.authoritative_entries with
            | .error e => .error e
            | .ok b6 => b6.write_u16 h.resource_entries

/-- DNSQuestion from src/packet.rs. -/
structure DNSQuestion where
  name : List Nat
  qtype : QueryType
  deriving DecidableEq

/-- DNSQuestion::new. -/
def DNSQuestion.new (name : List Nat) (qtype : QueryType) : DNSQuestion := ⟨name, qtype⟩

/-- DNSQuestion::read (reads into self, whose name field is appended to). -/
def DNSQuestion.read (q : DNSQuestion) (b : BytePacketBuffer) :
    Except DnsError (DNSQuestion × BytePacketBuffer) :=
  match b.read_qname q.name with
  | .error e => .error e
  | .ok (name, b1) =>
    match b1.read_u16 with
    | .error e => .error e
    | .ok (qt, b2) =>
      match b2.read_u16 with
      | .error e => .error e
      | .ok (_, b3) => .ok ({ name := name, qtype := QueryType.from_num qt }, b3)

/-- DNSQuestion::write. -/
def DNSQuestion.write (q : DNSQuestion) (b : BytePacketBuffer) : Except DnsError BytePacketBuffer :=
  match b.write_qname q.name with
  | .error e => .error e
  | .ok b1 =>
    match b1.write_u16 q.qtype.to_num with
    | .error e => .error e
    | .ok b2 => b2.write_u16 1

/-- DNSRecord::read. -/
def DNSRecord.read (b : BytePacketBuffer) : Except DnsError (DNSRecord × BytePacketBuffer) :=
  match b.read_qname [] with
  | .error e => .error e
  | .ok (domain, b1) =>
    match b1.read_u16 with
    | .error e => .error e
    | .ok (qtype_num, b2) =>
      match b2.read_u16 with
      | .error e => .error e
      | .ok (_, b3) =>
        match b3.read_u32 with
        | .error e => .error e
        | .ok (ttl, b4) =>
          match b4.read_u16 with
          | .error e => .error e
          | .ok (data_len, b5) =>
            match QueryType.from_num qtype_num with
            | .A =>
              match b5.read_u32 with
              | .error e => .error e
              | .ok (addr, b6) =>
                .ok (.A domain
                      ⟨((addr >>> 24) &&& 0xFF) % 256, ((addr >>> 16) &&& 0xFF) % 256,
                       ((addr >>> 8) &&& 0xFF) % 256, ((addr >>> 0) &&& 0xFF) % 256⟩ ttl, b6)
            | .NS =>
              match b5.read_qname [] with
              | .error e => .error e
              | .ok (host, b6) => .ok (.NS domain host ttl, b6)
            | .CNAME =>
              match b5.read_qname [] with
              | .error e => .error e
              | .ok (host, b6) => .ok (.CNAME domain host ttl, b6)
            | .MX =>
              match b5.read_u16 with
              | .error e => .error e
              | .ok (priority, b6) =>
                match b6.read_qname [] with
                | .error e => .error e
                | .ok (host, b7) => .ok (.MX domain priority host ttl, b7)
            | .AAAA =>
              match b5.read_u32 with
              | .error e => .error e
              | .ok (a1, b6) =>
                match b6.read_u32 with
                | .error e => .error e
                | .ok (a2, b7) =>
                  match b7.read_u32 with
                  | .error e => .error e
                  | .ok (a3, b8) =>
                    match b8.read_u32 with
                    | .error e => .error e
                    | .ok (a4, b9) =>
                      .ok (.AAAA domain
                            ⟨((a1 >>> 16) &&& 0xFFFF) % 65536, ((a1 >>> 0) &&& 0xFFFF) % 65536,
                             ((a2 >>> 16) &&& 0xFFFF) % 65536, ((a2 >>> 0) &&& 0xFFFF) % 65536,
                             ((a3 >>> 16) &&& 0xFFFF) % 65536, ((a3 >>> 0) &&& 0xFFFF) % 65536,
                             ((a4 >>> 16) &&& 0xFFFF) % 65536, ((a4 >>> 0) &&& 0xFFFF) % 65536⟩
                            ttl, b9)
            | .UNKNOWN _ =>
              match b5.skip data_len with
              | .error e => .error e
              | .ok b6 => .ok (.UNKNOWN domain qtype_num data_len ttl, b6)

/-- DNSRecord::write.  Returns the number of octets the record occupied. -/
def DNSRecord.write (r : DNSRecord) (b : BytePacketBuffer) :
    Except DnsError (Nat × BytePacketBuffer) :=
  let start_pos := b.pos
  match r with
  | .A domain addr ttl =>
    match b.write_qname domain with
    | .error e => .error e
    | .ok b1 =>
      match b1.write_u16 QueryType.A.to_num with
      | .error e => .error e
      | .ok b2 =>
        match b2.write_u16 1 with
        | .error e => .error e
        | .ok b3 =>
          match b3.write_u32 ttl with
          | .error e => .error e
          | .ok b4 =>
            match b4.write_u16 4 with
            | .error e => .error e
            | .ok b5 =>
              match b5.write_u8 (addr.o0 % 256) with
              | .error e => .error e
              | .ok b6 =>
                match b6.write_u8 (addr.o1 % 256) with
                | .error e => .error e
                | .ok b7 =>
                  match b7.write_u8 (addr.o2 % 256) with
                  | .error e => .error e
                  | .ok b8 =>
                    match b8.write_u8 (addr.o3 % 256) with
                    | .error e => .error e
                    | .ok b9 => .ok (b9.pos - start_pos, b9)
  | .NS domain host ttl =>
    match b.write_qname domain with
    | .error e => .error e
    | .ok b1 =>
      match b1.write_u16 QueryType.NS.to_num with
      | .error e => .error e
      | .ok b2 =>
        match b2.write_u16 1 with
        | .error e => .error e
        | .ok b3 =>
          match b3.write_u32 ttl with
          | .error e => .error e
          | .ok b4 =>
            let pos := b4.pos
            match b4.write_u16 0 with
            | .error e => .error e
            | .ok b5 =>
              match b5.write_qname host with
              | .error e => .error e
              | .ok b6 =>
                let size := b6.pos - (pos + 2)
                match b6.set_u16_at pos (size % 65536) with
                | .error e => .error e
                | .ok b7 => .ok (b7.pos - start_pos, b7)
  | .CNAME domain host ttl =>
    match b.write_qname domain with
    | .error e => .error e
    | .ok b1 =>
      match b1.write_u16 QueryType.CNAME.to_num with
      | .error e => .error e
      | .ok b2 =>
        match b2.write_u16 1 with
        | .error e => .error e
        | .ok b3 =>
          match b3.write_u32 ttl with
          | .error e => .error e
          | .ok b4 =>
            let pos := b4.pos
            match b4.write_u16 0 with
            | .error e => .error e
            | .ok b5 =>
              match b5.write_qname host with
              | .error e => .error e
              | .ok b6 =>
                let size := b6.pos - (pos + 2)
                match b6.set_u16_at pos (size % 65536) with
                | .error e => .error e
                | .ok b7 => .ok (b7.pos - start_pos, b7)
  | .MX domain priority host ttl =>
    match b.write_qname domain with
    | .error e => .error e
    | .ok b1 =>
      match b1.write_u16 QueryType.MX.to_num with
      | .error e => .error e
      | .ok b2 =>
        match b2.write_u16 1 with
        | .error e => .error e
        | .ok b3 =>
          match b3.write_u32 ttl with
          | .error e => .error e
          | .ok b4 =>
            let pos := b4.pos
            match b4.write_u16 0 with
            | .error e => .error e
            | .ok b5 =>
              match b5.write_u16 priority with
              | .error e => .error e
              | .ok b6 =>
                match b6.write_qname host with
                | .error e => .error e
                | .ok b7 =>
                  let size := b7.pos - (pos + 2)
                  match b7.set_u16_at pos (size % 65536) with
                  | .error e => .error e
                  | .ok b8 => .ok (b8.pos - start_pos, b8)
  | .AAAA domain addr ttl =>
    match b.write_qname domain with
    | .error e => .error e
    | .ok b1 =>
      match b1.write_u16 QueryType.AAAA.to_num with
      | .error e => .error e
      | .ok b2 =>
        match b2.write_u16 1 with
        | .error e => .error e
        | .ok b3 =>
          match b3.write_u32 ttl with
          | .error e => .error e
          | .ok b4 =>
            match b4.write_u16 16 with
            | .error e => .error e
            | .ok b5 =>
              match b5.write_u16 addr.s0 with
              | .error e => .error e
              | .ok b6 =>
                match b6.write_u16 addr.s1 with
                | .error e => .error e
                | .ok b7 =>
                  match b7.write_u16 addr.s2 with
                  | .error e => .error e
                  | .ok b8 =>
                    match b8.write_u16 addr.s3 with
                    | .error e => .error e
                    | .ok b9 =>
                      match b9.write_u16 addr.s4 with
                      | .error e => .error e
                      | .ok b10 =>
                        match b10.write_u16 addr.s5 with
                        | .error e => .error e
                        | .ok b11 =>
                          match b11.write_u16 addr.s6 with
                          | .error e => .error e
                          | .ok b12 =>
                            match b12.write_u16 addr.s7 with
                            | .error e => .error e
                            | .ok b13 => .ok (b13.pos - start_pos, b13)
  | .UNKNOWN _ _ _ _ =>
    -- the source logs and writes nothing for UNKNOWN records
    .ok (b.pos - start_pos, b)

/-- DNSPacket from src/packet.rs. -/
structure DNSPacket where
  header : DNSHeader
  questions : List DNSQuestion
  answers : List DNSRecord
  authorities : List DNSRecord
  resources : List DNSRecord
  deriving DecidableEq

/-- DNSPacket::new. -/
def DNSPacket.new : DNSPacket :=
  ⟨DNSHeader.new, [], [], [], []⟩

/-- The question-reading loop of DNSPacket::from_buffer. -/
def readQuestions (b : BytePacketBuffer) : Nat → Except DnsError (List DNSQuestion × BytePacketBuffer)
  | 0 => .ok ([], b)
  | n + 1 =>
    match (DNSQuestion.new [] (.UNKNOWN 0)).read b with
    | .error e => .error e
    | .ok (q, b1) =>
      match readQuestions b1 n with
      | .error e => .error e
      | .ok (qs, b2) => .ok (q :: qs, b2)

/-- The record-reading loops of DNSPacket::from_buffer. -/
def readRecords (b : BytePacketBuffer) : Nat → Except DnsError (List DNSRecord × BytePacketBuffer)
  | 0 => .ok ([], b)
  | n + 1 =>
    match DNSRecord.read b with
    | .error e => .error e
    | .ok (r, b1) =>
      match readRecords b1 n with
      | .error e => .error e
      | .ok (rs, b2) => .ok (r :: rs, b2)

/-- DNSPacket::from_buffer. -/
def DNSPacket.from_buffer (b : BytePacketBuffer) : Except DnsError (DNSPacket × BytePacketBuffer) :=
  match DNSHeader.read b with
  | .error e => .error e
  | .ok (header, b1) =>
    match readQuestions b1 header.questions with
    | .error e => .error e
    | .ok (questions, b2) =>
      match readRecords b2 header.answers with
      | .error e => .error e
      | .ok (answers, b3) =>
        match readRecords b3 header.authoritative_entries with
        | .error e => .error e
        | .ok (authorities, b4) =>
          match readRecords b4 header.resource_entries with
          | .error e => .error e
          | .ok (resources, b5) =>
            .ok ({ header := header, questions := questions, answers := answers,
                   authorities := authorities, resources := resources }, b5)

/-- The question-writing loop of DNSPacket::write. -/
def writeQuestions (b : BytePacketBuffer) : List DNSQuestion → Except DnsError BytePacketBuffer
  | [] => .ok b
  | q :: qs =>
    match q.write b with
    | .error e => .error e
    | .ok b1 => writeQuestions b1 qs

/-- The record-writing loops of DNSPacket::write. -/
def writeRecords (b : BytePacketBuffer) : List DNSRecord → Except DnsError BytePacketBuffer
  | [] => .ok b
  | r :: rs =>
    match r.write b with
    | .error e => .error e
    | .ok (_, b1) => writeRecords b1 rs

/-- DNSPacket::write.  Mutates self by overwriting the header section counts
    with the vector lengths (cast as u16), so the mutated packet is returned
    alongside the buffer. -/
def DNSPacket.write (p : DNSPacket) (b : BytePacketBuffer) :
    Except DnsError (DNSPacket × BytePacketBuffer) :=
  let p1 : DNSPacket :=
    { p with header :=
        { p.header with
            questions := p.questions.length % 65536
            answers := p.answers.length % 65536
            authoritative_entries := p.authorities.length % 65536
            resource_entries := p.resources.length % 65536 } }
  match p1.header.write b with
  | .error e => .error e
  | .ok b1 =>
    match writeQuestions b1 p1.questions with
    | .error e => .error e
    | .ok b2 =>
      match writeRecords b2 p1.answers with
      | .error e => .error e
      | .ok b3 =>
        match writeRecords b3 p1.authorities with
        | .error e => .error e
        | .ok b4 =>
          match writeRecords b4 p1.resources with
          | .error e => .error e
          | .ok b5 => .ok (p1, b5)

/-- Modelled from the spec: DNSPacket::get_random_a is called by
    recursive_lookup in src/main.rs but its definition is not under src/.
    Per spec §4.6.3 it returns the first A record address found in the
    answers section, in on-wire order. -/
def DNSPacket.get_random_a (p : DNSPacket) : Option Ipv4Addr :=
  p.answers.findSome? fun r =>
    match r with
    | .A _ addr _ => some addr
    | _ => none

/-- Case-insensitive, label-aligned suffix test between two names. -/
def labelSuffix (domain qname : List Nat) : Bool :=
  ((lowerBytes domain).splitOn 46).isSuffixOf ((lowerBytes qname).splitOn 46)

/-- Modelled from the spec: DNSPacket::get_resolved_ns is called by
    recursive_lookup in src/main.rs but its definition is not under src/.
    Per spec §4.6.1 it scans the authorities for NS records whose domain is
    a case-insensitive label-aligned suffix of qname and returns the address
    of the first matching glue A record from the additional section. -/
def DNSPacket.get_resolved_ns (p : DNSPacket) (qname : List Nat) : Option Ipv4Addr :=
  p.authorities.findSome? fun r =>
    match r with
    | .NS domain host _ =>
      if labelSuffix domain qname then
        p.resources.findSome? fun r2 =>
          match r2 with
          | .A d2 addr _ => if lowerBytes d2 = lowerBytes host then some addr else none
          | _ => none
      else none
    | _ => none

/-- Modelled from the spec: DNSPacket::get_unresolved_ns is called by
    recursive_lookup in src/main.rs but its definition is not under src/.
    Per spec §4.6.2 it returns the first authority NS host matching qname
    that has no glue A record in the additional section. -/
def DNSPacket.get_unresolved_ns (p : DNSPacket) (qname : List Nat) : Option (List Nat) :=
  p.authorities.findSome? fun r =>
    match r with
    | .NS domain host _ =>
      if labelSuffix domain qname then
        match p.resources.findSome? fun r2 =>
          match r2 with
          | .A d2 addr _ => if lowerBytes d2 = lowerBytes host then some addr else none
          | _ => none
        with
        | some _ => none
        | none => some host
      else none
    | _ => none

/-- The configured root nameserver of recursive_lookup (a.root-servers.net). -/
def rootNs : Ipv4Addr := ⟨198, 41, 0, 4⟩

/-- A network oracle standing for the lookup function of src/main.rs, which
    performs UDP I/O: given qname, qtype and the target nameserver it yields
    the decoded response packet or an error. -/
abbrev LookupOracle := List Nat → QueryType → Ipv4Addr → Except DnsError DNSPacket

/-- The loop of recursive_lookup from src/main.rs, parameterised by the
    network oracle, with fuel bounding the unbounded loop/recursion of the
    source.  Returns the result together with the number of queries issued
    (oracle invocations), as ghost instrumentation. -/
def recursiveLookupGo (oracle : LookupOracle) :
    Nat → List Nat → QueryType → Ipv4Addr → Except DnsError DNSPacket × Nat
  | 0, _, _, _ => (.error .fuelOut, 0)
  | fuel + 1, qname, qtype, ns =>
    match oracle qname qtype ns with
    | .error e => (.error e, 1)
    | .ok response =>
      -- answers present and no error: done
      if response.answers ≠ [] ∧ response.header.rescode = .NOERROR then
        (.ok response, 1)
      -- the name does not exist
      else if response.header.rescode = .NXDOMAIN then
        (.ok response, 1)
      else
        match response.get_resolved_ns qname with
        | some newNs =>
          let (r, n) := recursiveLookupGo oracle fuel qname qtype newNs
          (r, n + 1)
        | none =>
          match response.get_unresolved_ns qname with
          | none => (.ok response, 1)
          | some newNsName =>
            let (recResp, n1) := recursiveLookupGo oracle fuel newNsName .A rootNs
            match recResp with
            | .error e => (.error e, n1 + 1)
            | .ok recPacket =>
              match recPacket.get_random_a with
              | some newNs =>
                let (r, n2) := recursiveLookupGo oracle fuel qname qtype newNs
                (r, n1 + n2 + 1)
              | none => (.ok response, n1 + 1)

/-- recursive_lookup from src/main.rs: the loop started at the root. -/
def recursive_lookup (oracle : LookupOracle) (fuel : Nat) (qname : List Nat)
    (qtype : QueryType) : Except DnsError DNSPacket × Nat :=
  recursiveLookupGo oracle fuel qname qtype rootNs

/-- The response-synthesis core of handle_query from src/main.rs: given the
    parsed inbound request and the behaviour of recursive_lookup (as an
    oracle from question name and type to its result), build the response
    packet.  Vec::pop takes the last question. -/
def handle_query (request : DNSPacket)
    (resolve : List Nat → QueryType → Except DnsError DNSPacket) : DNSPacket :=
  let base : DNSPacket :=
    { DNSPacket.new with header :=
        { DNSHeader.new with
            id := request.header.id
            recursion_desired := true
            recursion_available := true
            response := true } }
  match request.questions.getLast? with
  | some question =>
    match resolve question.name question.qtype with
    | .ok result =>
      { base with
          header := { base.header with rescode := result.header.rescode }
          questions := [question]
          answers := result.answers
          authorities := result.authorities
          resources := result.resources }
    | .error _ =>
      { base with header := { base.header with rescode := .SERVFAIL } }
  | none =>
    { base with header := { base.header with rescode := .FORMERR } }

/- ------------------------------------------------------------------ -/
/- Spec-side definitions: the "modulo" clauses of the round-trip law,  -/
/- written from the words of the specification.                        -/
/- ------------------------------------------------------------------ -/

/-- Spec-side: lowercase a question name. -/
def lowerQuestion (q : DNSQuestion) : DNSQuestion := { q with name := lowerBytes q.name }

/-- Spec-side: lowercase every name occurring in a record. -/
def lowerRecord : DNSRecord → DNSRecord
  | .UNKNOWN d q dl t => .UNKNOWN (lowerBytes d) q dl t
  | .A d a t => .A (lowerBytes d) a t
  | .NS d h t => .NS (lowerBytes d) (lowerBytes h) t
  | .CNAME d h t => .CNAME (lowerBytes d) (lowerBytes h) t
  | .MX d p h t => .MX (lowerBytes d) p (lowerBytes h) t
  | .AAAA d a t => .AAAA (lowerBytes d) a t

/-- Spec-side: lowercase every name in a message. -/
def lowerPacket (p : DNSPacket) : DNSPacket :=
  { p with
      questions := p.questions.map lowerQuestion
      answers := p.answers.map lowerRecord
      authorities := p.authorities.map lowerRecord
      resources := p.resources.map lowerRecord }

/-- Spec-side: normalize the header section counts to the vector lengths
    (as 16-bit values), exactly the mutation DNSPacket::write performs. -/
def normalizeCounts (p : DNSPacket) : DNSPacket :=
  { p with header :=
      { p.header with
          questions := p.questions.length % 65536
          answers := p.answers.length % 65536
          authoritative_entries := p.authorities.length % 65536
          resource_entries := p.resources.length % 65536 } }

def isUnknownRecord : DNSRecord → Bool
  | .UNKNOWN _ _ _ _ => true
  | _ => false

/-- Spec-side: drop the UNKNOWN records from every section. -/
def dropUnknown (p : DNSPacket) : DNSPacket :=
  { p with
      answers := p.answers.filter (fun r => !isUnknownRecord r)
      authorities := p.authorities.filter (fun r => !isUnknownRecord r)
      resources := p.resources.filter (fun r => !isUnknownRecord r) }

/- ------------------------------------------------------------------ -/
/- Well-formedness predicates used by the round-trip theorem.          -/
/- ------------------------------------------------------------------ -/

/-- A well-formed DNS name: a dot-separated sequence of labels, every
    label non-empty and at most 63 octets, every byte ASCII.  (A name with
    an empty label — in particular the empty root name — is mis-encoded by
    write_qname, and non-ASCII bytes leave the scope in which lowerBytes
    models the lossy decode of the source.) -/
def goodName (n : List Nat) : Prop :=
  ∀ l ∈ n.splitOn 46, l ≠ [] ∧ l.length ≤ 63 ∧ ∀ b ∈ l, b < 128

/-- A well-formed question: a good name and one of the five concrete
    supported query types. -/
def goodQuestion (q : DNSQuestion) : Prop :=
  goodName q.name ∧ q.qtype ∈ [QueryType.A, .NS, .CNAME, .MX, .AAAA]

/-- A well-formed record of a supported type (UNKNOWN excluded), with all
    numeric fields within their machine-integer ranges. -/
def goodRecord : DNSRecord → Prop
  | .UNKNOWN _ _ _ _ => False
  | .A d a t => goodName d ∧ t < 2 ^ 32 ∧ a.o0 < 256 ∧ a.o1 < 256 ∧ a.o2 < 256 ∧ a.o3 < 256
  | .NS d h t => goodName d ∧ goodName h ∧ t < 2 ^ 32
  | .CNAME d h t => goodName d ∧ goodName h ∧ t < 2 ^ 32
  | .MX d p h t => goodName d ∧ p < 2 ^ 16 ∧ goodName h ∧ t < 2 ^ 32
  | .AAAA d a t => goodName d ∧ t < 2 ^ 32 ∧ a.s0 < 65536 ∧ a.s1 < 65536 ∧ a.s2 < 65536 ∧
      a.s3 < 65536 ∧ a.s4 < 65536 ∧ a.s5 < 65536 ∧ a.s6 < 65536 ∧ a.s7 < 65536

/-- A well-formed message: in-range header fields, well-formed questions
    and records, section lengths within u16 range. -/
def goodPacket (p : DNSPacket) : Prop :=
  p.header.id < 65536 ∧ p.header.opcode < 16 ∧
  p.questions.length < 65536 ∧ p.answers.length < 65536 ∧
  p.authorities.length < 65536 ∧ p.resources.length < 65536 ∧
  (∀ q ∈ p.questions, goodQuestion q) ∧
  (∀ r ∈ p.answers, goodRecord r) ∧
  (∀ r ∈ p.authorities, goodRecord r) ∧
  (∀ r ∈ p.resources, goodRecord r)

/- ------------------------------------------------------------------ -/
/- Wire images: the exact octet sequences the encoder emits.           -/
/- ------------------------------------------------------------------ -/

/-- The two big-endian octets of a u16 write. -/
def u16Wire (v : Nat) : List Nat := [(v >>> 8) % 256, v % 256]

/-- The four big-endian octets of a u32 write. -/
def u32Wire (v : Nat) : List Nat :=
  [(v >>> 24) % 256, (v >>> 16) % 256, (v >>> 8) % 256, v % 256]

/-- One length-prefixed label on the wire. -/
def labelWire (l : List Nat) : List Nat := l.length :: l

/-- The labels of a name on the wire (without the terminator). -/
def labelsWire (ls : List (List Nat)) : List Nat := (ls.map labelWire).flatten

/-- A whole uncompressed name on the wire. -/
def qnameWire (n : List Nat) : List Nat := labelsWire (n.splitOn 46) ++ [0]

/-- A question on the wire. -/
def questionWire (q : DNSQuestion) : List Nat :=
  qnameWire q.name ++ u16Wire q.qtype.to_num ++ u16Wire 1

/-- A record on the wire (UNKNOWN records are dropped by the encoder). -/
def recordWire : DNSRecord → List Nat
  | .UNKNOWN _ _ _ _ => []
  | .A d a t =>
    qnameWire d ++ u16Wire 1 ++ u16Wire 1 ++ u32Wire t ++ u16Wire 4 ++
      [a.o0 % 256, a.o1 % 256, a.o2 % 256, a.o3 % 256]
  | .NS d h t =>
    qnameWire d ++ u16Wire 2 ++ u16Wire 1 ++ u32Wire t ++
      u16Wire ((qnameWire h).length % 65536) ++ qnameWire h
  | .CNAME d h t =>
    qnameWire d ++ u16Wire 5 ++ u16Wire 1 ++ u32Wire t ++
      u16Wire ((qnameWire h).length % 65536) ++ qnameWire h
  | .MX d p h t =>
    qnameWire d ++ u16Wire 15 ++ u16Wire 1 ++ u32Wire t ++
      u16Wire ((2 + (qnameWire h).length) % 65536) ++ u16Wire p ++ qnameWire h
  | .AAAA d a t =>
    qnameWire d ++ u16Wire 28 ++ u16Wire 1 ++ u32Wire t ++ u16Wire 16 ++
      u16Wire a.s0 ++ u16Wire a.s1 ++ u16Wire a.s2 ++ u16Wire a.s3 ++
      u16Wire a.s4 ++ u16Wire a.s5 ++ u16Wire a.s6 ++ u16Wire a.s7

/-- The header on the wire. -/
def headerWire (h : DNSHeader) : List Nat :=
  u16Wire h.id ++ [h.flagsA, h.flagsB] ++ u16Wire h.questions ++ u16Wire h.answers ++
    u16Wire h.authoritative_entries ++ u16Wire h.resource_entries

/-- The whole message on the wire (with the counts the encoder emits). -/
def packetWire (p : DNSPacket) : List Nat :=
  headerWire (normalizeCounts p).header ++
    (p.questions.map questionWire).flatten ++
    (p.answers.map recordWire).flatten ++
    (p.authorities.map recordWire).flatten ++
    (p.resources.map recordWire).flatten

/- ------------------------------------------------------------------ -/
/- Buffer-content predicates.                                          -/
/- ------------------------------------------------------------------ -/

/-- The write of bs took b to b2: the cursor advanced by exactly the
    length, stayed within bounds, the bytes landed at the cursor, and no
    other octet changed. -/
def writesBytes (b b2 : BytePacketBuffer) (bs : List Nat) : Prop :=
  b2.pos = b.pos + bs.length ∧ b2.pos ≤ 512 ∧
  (∀ i, i < bs.length → b2.buf (b.pos + i) = bs.getD i 0) ∧
  (∀ j, j < b.pos ∨ b.pos + bs.length ≤ j → b2.buf j = b.buf j)

/-- The buffer holds the octets bs starting at start. -/
def hasBytes (f : Buf) (start : Nat) (bs : List Nat) : Prop :=
  ∀ i, i < bs.length → f (start + i) = bs.getD i 0

/-- The output accumulated by the label loop of read_qname: the delimiter,
    then the lowercased label, then the remaining labels joined by dots. -/
def joinLower (delim : List Nat) : List (List Nat) → List Nat
  | [] => []
  | l :: ls => delim ++ lowerBytes l ++ joinLower [46] ls

/-- The error component of a read_qname outcome. -/
def qnameErr : QnameOut → Option DnsError
  | .ok _ _ _ => none
  | .err e _ _ => some e

/-- The number of compression jumps a read_qname outcome followed. -/
def qnameJumps : QnameOut → Nat
  | .ok _ _ j => j
  | .err _ _ j => j

/-- True exactly on the ok outcome. -/
def exceptOk {ε α : Type} : Except ε α → Bool
  | .ok _ => true
  | .error _ => false

/-- Encode the message into a fresh buffer, then decode that buffer from
    position 0 (the round trip of the spec). -/
def reDecode (p : DNSPacket) : Option DNSPacket :=
  match DNSPacket.write p BytePacketBuffer.new with
  | .error _ => none
  | .ok (_, b) =>
    match DNSPacket.from_buffer { b with pos := 0 } with
    | .error _ => none
    | .ok (d, _) => some d

/- ------------------------------------------------------------------ -/
/- Helper projections and concrete objects for the claims.             -/
/- ------------------------------------------------------------------ -/

/-- The cursor of a successful buffer operation. -/
def bufPosOf : Except DnsError BytePacketBuffer → Option Nat
  | .ok b => some b.pos
  | .error _ => none

/-- One octet of a successful buffer operation. -/
def bufByteOf (r : Except DnsError BytePacketBuffer) (i : Nat) : Option Nat :=
  match r with
  | .ok b => some (b.buf i)
  | .error _ => none

/-- Decode one name from position 0 of a written buffer, returning the name
    and the cursor after decoding. -/
def reReadFirstName (r : Except DnsError BytePacketBuffer) : Option (List Nat × Nat) :=
  match r with
  | .error _ => none
  | .ok b =>
    match BytePacketBuffer.read_qname { b with pos := 0 } [] with
    | .error _ => none
    | .ok (n, b2) => some (n, b2.pos)

/-- The buffer of spec scenario 3: offset 12 holds 03 'f' 'o' 'o' 00 and
    offset 20 holds C0 0C. -/
def c9buf : Buf := fun i =>
  if i = 12 then 3
  else if i = 13 then 102
  else if i = 14 then 111
  else if i = 15 then 111
  else if i = 20 then 0xC0
  else if i = 21 then 12
  else 0

/-- A message whose only record is UNKNOWN: the encoder counts it in the
    header but emits no octets for it. -/
def cexPacket : DNSPacket :=
  { DNSPacket.new with answers := [.UNKNOWN [97] 99 0 0] }

/-- A small well-formed message for the round-trip witness. -/
def witnessPacket : DNSPacket :=
  { DNSPacket.new with
      questions := [DNSQuestion.new [70, 111, 111] .A]
      answers := [.A [97] ⟨8, 8, 8, 8⟩ 60] }

/-- A response carrying rescode NXDOMAIN. -/
def nxPacket : DNSPacket :=
  { DNSPacket.new with header := { DNSHeader.new with rescode := .NXDOMAIN } }

instance (n : List Nat) : Decidable (goodName n) := by
  unfold goodName
  infer_instance

instance (q : DNSQuestion) : Decidable (goodQuestion q) := by
  unfold goodQuestion
  infer_instance

instance (r : DNSRecord) : Decidable (goodRecord r) := by
  cases r <;> simp only [goodRecord] <;> infer_instance

instance (p : DNSPacket) : Decidable (goodPacket p) := by
  unfold goodPacket
  infer_instance

/- ------------------------------------------------------------------ -/
/- Arithmetic and list helpers.                                        -/
/- ------------------------------------------------------------------ -/

theorem lor_shl_add {k hi lo : Nat} (h : lo < 2 ^ k) :
    (hi <<< k) ||| lo = hi * 2 ^ k + lo := by
  rw [Nat.shiftLeft_eq, Nat.mul_comm hi (2 ^ k), ← Nat.mul_add_lt_is_or h hi]

theorem and_255 (v : Nat) : v &&& 0xFF = v % 256 := by
  have := Nat.and_pow_two_sub_one_eq_mod v 8
  norm_num at this
  exact this

theorem and_15 (v : Nat) : v &&& 0x0F = v % 16 := by
  have := Nat.and_pow_two_sub_one_eq_mod v 4
  norm_num at this
  exact this

theorem getD_append_left {l1 l2 : List Nat} {i : Nat} (h : i < l1.length) :
    (l1 ++ l2).getD i 0 = l1.getD i 0 := by
  simp [List.getD_eq_getElem?_getD, List.getElem?_append_left h]

theorem getD_append_right {l1 l2 : List Nat} {i : Nat} (h : l1.length ≤ i) :
    (l1 ++ l2).getD i 0 = l2.getD (i - l1.length) 0 := by
  simp [List.getD_eq_getElem?_getD, List.getElem?_append_right h]

/- ------------------------------------------------------------------ -/
/- writesBytes / hasBytes machinery.                                   -/
/- ------------------------------------------------------------------ -/

theorem writesBytes_append {b b1 b2 : BytePacketBuffer} {l1 l2 : List Nat}
    (h1 : writesBytes b b1 l1) (h2 : writesBytes b1 b2 l2) :
    writesBytes b b2 (l1 ++ l2) := by
  obtain ⟨p1, q1, c1, f1⟩ := h1
  obtain ⟨p2, q2, c2, f2⟩ := h2
  refine ⟨by simp [p2, p1]; omega, by omega, ?_, ?_⟩
  · intro i hi
    simp only [List.length_append] at hi
    by_cases hlt : i < l1.length
    · rw [getD_append_left hlt, ← c1 i hlt]
      apply f2
      omega
    · rw [getD_append_right (by omega)]
      have := c2 (i - l1.length) (by omega)
      rw [← this]
      congr 1
      omega
  · intro j hj
    simp only [List.length_append] at hj
    rw [f2 j (by omega), f1 j (by omega)]

theorem writesBytes_hasBytes {b b2 : BytePacketBuffer} {bs : List Nat}
    (h : writesBytes b b2 bs) : hasBytes b2.buf b.pos bs := h.2.2.1

/-- Transport hasBytes along agreement with a later buffer. -/
theorem hasBytes_of_agree {f g : Buf} {start : Nat} {bs : List Nat}
    (h : hasBytes f start bs)
    (hag : ∀ i, start ≤ i → i < start + bs.length → g i = f i) :
    hasBytes g start bs := by
  intro i hi
  rw [hag (start + i) (by omega) (by omega)]
  exact h i hi

theorem hasBytes_append {f : Buf} {start : Nat} {l1 l2 : List Nat} :
    hasBytes f start (l1 ++ l2) ↔
      hasBytes f start l1 ∧ hasBytes f (start + l1.length) l2 := by
  constructor
  · intro h
    constructor
    · intro i hi
      rw [h i (by simp [List.length_append]; omega), getD_append_left hi]
    · intro i hi
      have := h (l1.length + i) (by simp [List.length_append]; omega)
      rw [getD_append_right (by omega)] at this
      simpa [Nat.add_assoc, Nat.add_sub_cancel_left] using this
  · rintro ⟨h1, h2⟩ i hi
    simp only [List.length_append] at hi
    by_cases hlt : i < l1.length
    · rw [getD_append_left hlt]
      exact h1 i hlt
    · rw [getD_append_right (by omega)]
      have := h2 (i - l1.length) (by omega)
      rw [← this]
      congr 1
      omega

/- ------------------------------------------------------------------ -/
/- Specifications of the primitive writes.                             -/
/- ------------------------------------------------------------------ -/

theorem write_spec {b b' : BytePacketBuffer} {v : Nat} (h : b.write v = .ok b') :
    writesBytes b b' [v % 256] := by
  unfold BytePacketBuffer.write at h
  split at h
  · cases h
  next hp =>
    injection h with h
    subst h
    refine ⟨rfl, ?_, ?_, ?_⟩
    · show b.pos + 1 ≤ 512
      omega
    · intro i hi
      simp only [List.length_cons, List.length_nil] at hi
      have hi0 : i = 0 := by omega
      subst hi0
      show setByte b.buf b.pos (v % 256) (b.pos + 0) = _
      simp [setByte]
    · intro j hj
      show setByte b.buf b.pos (v % 256) j = b.buf j
      have hne : j ≠ b.pos := by
        simp only [List.length_cons, List.length_nil] at hj
        omega
      simp [setByte, hne]

theorem write_u8_spec {b b' : BytePacketBuffer} {v : Nat} (h : b.write_u8 v = .ok b') :
    writesBytes b b' [v % 256] :=
  write_spec h

theorem write_u16_spec {b b' : BytePacketBuffer} {v : Nat} (h : b.write_u16 v = .ok b') :
    writesBytes b b' (u16Wire v) := by
  unfold BytePacketBuffer.write_u16 at h
  split at h
  · cases h
  next b1 h1 =>
    have hall := writesBytes_append (write_spec h1) (write_spec h)
    have e1 : (v >>> 8) % 256 % 256 = (v >>> 8) % 256 := by omega
    have e2 : (v &&& 0xFF) % 256 % 256 = v % 256 := by rw [and_255]; omega
    rw [e1, e2] at hall
    exact hall

theorem write_u32_spec {b b' : BytePacketBuffer} {v : Nat} (h : b.write_u32 v = .ok b') :
    writesBytes b b' (u32Wire v) := by
  unfold BytePacketBuffer.write_u32 at h
  split at h
  · cases h
  next b1 h1 =>
    split at h
    · cases h
    next b2 h2 =>
      split at h
      · cases h
      next b3 h3 =>
        have hall := writesBytes_append (writesBytes_append
          (writesBytes_append (write_spec h1) (write_spec h2)) (write_spec h3))
          (write_spec h)
        have e1 : ∀ x : Nat, (x &&& 0xFF) % 256 % 256 = x % 256 := by
          intro x
          rw [and_255]
          omega
        have e2 : ∀ x k : Nat, ((x >>> k) &&& 0xFF) % 256 = (x >>> k) % 256 := by
          intro x k
          rw [and_255]
          omega
        simp only [e1] at hall
        rw [Nat.shiftRight_zero] at hall
        exact hall

theorem writesBytes_nil {b : BytePacketBuffer} (hp : b.pos ≤ 512) : writesBytes b b [] :=
  ⟨by simp, hp, by intro i hi; simp at hi, fun _ _ => rfl⟩

theorem writesBytes_pos_le {b b' : BytePacketBuffer} {bs : List Nat}
    (h : writesBytes b b' bs) : b'.pos ≤ 512 := h.2.1

theorem writeBytes_spec : ∀ {l : List Nat} {b b' : BytePacketBuffer},
    writeBytes b l = .ok b' → (∀ x ∈ l, x < 256) → b.pos ≤ 512 → writesBytes b b' l := by
  intro l
  induction l with
  | nil =>
    intro b b' h _ hp
    injection h with h
    subst h
    exact writesBytes_nil hp
  | cons x xs ih =>
    intro b b' h hl hp
    unfold writeBytes at h
    split at h
    · cases h
    next b1 h1 =>
      have w1 := write_u8_spec h1
      have hx : x % 256 = x := Nat.mod_eq_of_lt (hl x (by simp))
      rw [hx] at w1
      have w2 := ih h (fun y hy => hl y (by simp [hy])) (writesBytes_pos_le w1)
      exact writesBytes_append w1 w2

theorem labelsWire_cons (l : List Nat) (ls : List (List Nat)) :
    labelsWire (l :: ls) = labelWire l ++ labelsWire ls := by
  simp [labelsWire]

theorem writeLabels_spec : ∀ {ls : List (List Nat)} {b b' : BytePacketBuffer},
    writeLabels b ls = .ok b' → (∀ l ∈ ls, ∀ x ∈ l, x < 256) → b.pos ≤ 512 →
    writesBytes b b' (labelsWire ls) := by
  intro ls
  induction ls with
  | nil =>
    intro b b' h _ hp
    injection h with h
    subst h
    exact writesBytes_nil hp
  | cons l ls ih =>
    intro b b' h hl hp
    unfold writeLabels at h
    split at h
    · cases h
    next hlen =>
      split at h
      · cases h
      next b1 h1 =>
        split at h
        · cases h
        next b2 h2 =>
          have w1 := write_u8_spec h1
          have hlm : l.length % 256 = l.length := Nat.mod_eq_of_lt (by omega)
          rw [hlm] at w1
          have w2 := writeBytes_spec h2 (hl l (by simp)) (writesBytes_pos_le w1)
          have w3 := ih h (fun m hm y hy => hl m (by simp [hm]) y hy) (writesBytes_pos_le w2)
          rw [labelsWire_cons]
          exact writesBytes_append (writesBytes_append w1 w2) w3

theorem write_qname_spec {b b' : BytePacketBuffer} {n : List Nat}
    (h : b.write_qname n = .ok b')
    (hn : ∀ l ∈ n.splitOn 46, ∀ x ∈ l, x < 256) (hp : b.pos ≤ 512) :
    writesBytes b b' (qnameWire n) := by
  unfold BytePacketBuffer.write_qname at h
  split at h
  · cases h
  next b1 h1 =>
    have w1 := writeLabels_spec h1 hn hp
    have w2 := write_u8_spec h
    exact writesBytes_append w1 w2

theorem set_u8_at_spec {b b' : BytePacketBuffer} {p v : Nat} (h : b.set_u8_at p v = .ok b') :
    p < 512 ∧ b'.pos = b.pos ∧ b'.buf p = v % 256 ∧ ∀ j, j ≠ p → b'.buf j = b.buf j := by
  unfold BytePacketBuffer.set_u8_at at h
  split at h
  · cases h
  next hgt =>
    split at h
    next hlt =>
      injection h with h
      subst h
      refine ⟨hlt, rfl, ?_, ?_⟩
      · show setByte b.buf p (v % 256) p = v % 256
        simp [setByte]
      · intro j hj
        show setByte b.buf p (v % 256) j = b.buf j
        simp [setByte, hj]
    · cases h

theorem set_u16_at_spec {b b' : BytePacketBuffer} {p v : Nat} (h : b.set_u16_at p v = .ok b') :
    p + 1 < 512 ∧ b'.pos = b.pos ∧ b'.buf p = (v >>> 8) % 256 ∧ b'.buf (p + 1) = v % 256 ∧
      ∀ j, j ≠ p → j ≠ p + 1 → b'.buf j = b.buf j := by
  unfold BytePacketBuffer.set_u16_at at h
  split at h
  · cases h
  next b1 h1 =>
    split at h
    · cases h
    next b2 h2 =>
      injection h with h
      subst h
      obtain ⟨hp1, hpos1, hv1, hf1⟩ := set_u8_at_spec h1
      obtain ⟨hp2, hpos2, hv2, hf2⟩ := set_u8_at_spec h2
      have e1 : (v >>> 8) % 256 % 256 = (v >>> 8) % 256 := by omega
      have e2 : (v &&& 0xFF) % 256 % 256 = v % 256 := by rw [and_255]; omega
      refine ⟨hp2, by rw [hpos2, hpos1], ?_, ?_, ?_⟩
      · rw [hf2 p (by omega), hv1, e1]
      · rw [hv2, e2]
      · intro j hj1 hj2
        rw [hf2 j hj2, hf1 j hj1]

theorem writesBytes_patch {b b2 b3 : BytePacketBuffer} {l1 l2 : List Nat} {x y v : Nat}
    (hw : writesBytes b b2 (l1 ++ [x, y] ++ l2))
    (hs : b2.set_u16_at (b.pos + l1.length) v = .ok b3) :
    writesBytes b b3 (l1 ++ u16Wire v ++ l2) := by
  obtain ⟨hpos, hle, hbytes, hframe⟩ := hw
  obtain ⟨hp1, hpos1, hv1, hv2, hf⟩ := set_u16_at_spec hs
  have hlen : (l1 ++ [x, y] ++ l2).length = (l1 ++ u16Wire v ++ l2).length := by
    simp [u16Wire]
  refine ⟨by rw [hpos1, hpos, hlen], by rw [hpos1]; exact hle, ?_, ?_⟩
  · intro i hi
    simp only [List.length_append, List.length_cons, List.length_nil, u16Wire] at hi
    by_cases hc1 : i < l1.length
    · rw [hf (b.pos + i) (by omega) (by omega)]
      have := hbytes i (by simp [u16Wire]; omega)
      rw [this]
      rw [getD_append_left (by simp; omega), getD_append_left hc1,
          getD_append_left (by simp [u16Wire]; omega), getD_append_left hc1]
    · by_cases hc2 : i = l1.length
      · subst hc2
        rw [hv1]
        have hr : ((l1 ++ u16Wire v) ++ l2).getD l1.length 0 = (v >>> 8) % 256 := by
          rw [getD_append_left (by simp [u16Wire]),
              getD_append_right (le_refl _)]
          simp [u16Wire]
        rw [hr]
      · by_cases hc3 : i = l1.length + 1
        · subst hc3
          have hstep : b.pos + (l1.length + 1) = b.pos + l1.length + 1 := by omega
          rw [hstep, hv2]
          have hr : ((l1 ++ u16Wire v) ++ l2).getD (l1.length + 1) 0 = v % 256 := by
            rw [getD_append_left (by simp [u16Wire]),
                getD_append_right (by omega)]
            simp [u16Wire]
          rw [hr]
        · rw [hf (b.pos + i) (by omega) (by omega)]
          have := hbytes i (by simp; omega)
          rw [this]
          rw [getD_append_right (by simp; omega), getD_append_right (by simp [u16Wire]; omega)]
          simp [u16Wire]
  · intro j hj
    simp only [List.length_append, List.length_cons, List.length_nil, u16Wire] at hj
    have hj' : j < b.pos ∨ b.pos + (l1 ++ [x, y] ++ l2).length ≤ j := by
      simp only [List.length_append, List.length_cons, List.length_nil]
      omega
    rw [hf j (by omega) (by omega), hframe j hj']

/- ------------------------------------------------------------------ -/
/- Specifications of the primitive reads.                              -/
/- ------------------------------------------------------------------ -/

theorem lor_shl_add8 {hi lo : Nat} (h : lo < 256) : (hi <<< 8) ||| lo = hi * 256 + lo := by
  have hp : (2 : Nat) ^ 8 = 256 := by norm_num
  have h8 : lo < 2 ^ 8 := by omega
  have hr := @lor_shl_add 8 hi lo h8
  rw [hp] at hr
  exact hr

theorem lor_shl_add16 {hi lo : Nat} (h : lo < 65536) : (hi <<< 16) ||| lo = hi * 65536 + lo := by
  have hp : (2 : Nat) ^ 16 = 65536 := by norm_num
  have h16 : lo < 2 ^ 16 := by omega
  have hr := @lor_shl_add 16 hi lo h16
  rw [hp] at hr
  exact hr

theorem lor_shl_add24 {hi lo : Nat} (h : lo < 16777216) :
    (hi <<< 24) ||| lo = hi * 16777216 + lo := by
  have hp : (2 : Nat) ^ 24 = 16777216 := by norm_num
  have h24 : lo < 2 ^ 24 := by omega
  have hr := @lor_shl_add 24 hi lo h24
  rw [hp] at hr
  exact hr

theorem shiftRight8 (v : Nat) : v >>> 8 = v / 256 := by
  rw [Nat.shiftRight_eq_div_pow]

theorem shiftRight16 (v : Nat) : v >>> 16 = v / 65536 := by
  rw [Nat.shiftRight_eq_div_pow]

theorem shiftRight24 (v : Nat) : v >>> 24 = v / 16777216 := by
  rw [Nat.shiftRight_eq_div_pow]

theorem read_u8_eq {c : BytePacketBuffer} (h : c.pos < 512) :
    c.read_u8 = .ok (c.buf c.pos, { c with pos := c.pos + 1 }) := by
  unfold BytePacketBuffer.read_u8
  rw [if_neg (by omega)]

theorem read_u16_eq {c : BytePacketBuffer} (h : c.pos + 1 < 512) :
    c.read_u16 = .ok ((c.buf c.pos <<< 8) ||| c.buf (c.pos + 1), { c with pos := c.pos + 2 }) := by
  unfold BytePacketBuffer.read_u16
  rw [read_u8_eq (by omega)]
  dsimp only
  rw [read_u8_eq (c := { c with pos := c.pos + 1 }) (by dsimp only; omega)]

theorem read_u32_eq {c : BytePacketBuffer} (h : c.pos + 3 < 512) :
    c.read_u32 = .ok ((c.buf c.pos <<< 24) ||| (c.buf (c.pos + 1) <<< 16) |||
      (c.buf (c.pos + 2) <<< 8) ||| c.buf (c.pos + 3), { c with pos := c.pos + 4 }) := by
  unfold BytePacketBuffer.read_u32
  rw [read_u8_eq (by omega)]
  dsimp only
  rw [read_u8_eq (c := { c with pos := c.pos + 1 }) (by dsimp only; omega)]
  dsimp only
  rw [read_u8_eq (c := { c with pos := c.pos + 2 }) (by dsimp only; omega)]
  dsimp only
  rw [read_u8_eq (c := { c with pos := c.pos + 3 }) (by dsimp only; omega)]

theorem hasBytes_byte {f : Buf} {start : Nat} {bs : List Nat} {i : Nat}
    (hb : hasBytes f start bs) (hi : i < bs.length) : f (start + i) = bs.getD i 0 :=
  hb i hi

theorem read_u16_spec {c : BytePacketBuffer} {v : Nat} (hv : v < 65536)
    (hb : hasBytes c.buf c.pos (u16Wire v)) (hle : c.pos + 2 ≤ 512) :
    c.read_u16 = .ok (v, { c with pos := c.pos + 2 }) := by
  have h0 := hasBytes_byte hb (i := 0) (by simp [u16Wire])
  have h1 := hasBytes_byte hb (i := 1) (by simp [u16Wire])
  simp only [u16Wire, Nat.add_zero, List.getD_cons_zero, List.getD_cons_succ] at h0 h1
  rw [read_u16_eq (by omega), h0, h1]
  have hval : (((v >>> 8) % 256) <<< 8) ||| (v % 256) = v := by
    rw [lor_shl_add8 (by omega), shiftRight8]
    omega
  rw [hval]

theorem read_u32_spec {c : BytePacketBuffer} {v : Nat} (hv : v < 2 ^ 32)
    (hb : hasBytes c.buf c.pos (u32Wire v)) (hle : c.pos + 4 ≤ 512) :
    c.read_u32 = .ok (v, { c with pos := c.pos + 4 }) := by
  have h0 := hasBytes_byte hb (i := 0) (by simp [u32Wire])
  have h1 := hasBytes_byte hb (i := 1) (by simp [u32Wire])
  have h2 := hasBytes_byte hb (i := 2) (by simp [u32Wire])
  have h3 := hasBytes_byte hb (i := 3) (by simp [u32Wire])
  simp only [u32Wire, Nat.add_zero, List.getD_cons_zero, List.getD_cons_succ] at h0 h1 h2 h3
  rw [read_u32_eq (by omega), h0, h1, h2, h3]
  have hval : (((v >>> 24) % 256) <<< 24) ||| (((v >>> 16) % 256) <<< 16) |||
      (((v >>> 8) % 256) <<< 8) ||| (v % 256) = v := by
    rw [Nat.lor_assoc, Nat.lor_assoc]
    rw [lor_shl_add8 (by omega)]
    rw [lor_shl_add16 (by omega)]
    rw [lor_shl_add24 (by omega)]
    rw [shiftRight8, shiftRight16, shiftRight24]
    have h32 : (2 : Nat) ^ 32 = 4294967296 := by norm_num
    rw [h32] at hv
    omega
  rw [hval]

/- ------------------------------------------------------------------ -/
/- Reading back an uncompressed name.                                  -/
/- ------------------------------------------------------------------ -/



theorem lowerBytes_append (l1 l2 : List Nat) :
    lowerBytes (l1 ++ l2) = lowerBytes l1 ++ lowerBytes l2 := by
  simp [lowerBytes]

theorem joinLower_eq_lower_intercalate (ls : List (List Nat)) :
    joinLower [] ls = lowerBytes (List.intercalate [46] ls) := by
  induction ls with
  | nil => simp [joinLower, List.intercalate, lowerBytes]
  | cons l ls ih =>
    cases ls with
    | nil => simp [joinLower, List.intercalate, lowerBytes]
    | cons l2 ls2 =>
      have hstep : List.intercalate [46] (l :: l2 :: ls2) =
          l ++ [46] ++ List.intercalate [46] (l2 :: ls2) := by
        simp [List.intercalate, List.intersperse_cons₂]
      have h46 : lowerBytes [46] = [46] := by
        simp [lowerBytes, toLowerByte]
      simp only [joinLower, List.nil_append] at ih ⊢
      rw [hstep, lowerBytes_append, lowerBytes_append, h46, ← ih]
      simp [List.append_assoc]

theorem lowerBytes_eq_joinLower {n : List Nat} :
    lowerBytes n = joinLower [] (n.splitOn 46) := by
  rw [joinLower_eq_lower_intercalate]
  rw [List.intercalate_splitOn n 46]

theorem range_map_hasBytes {f : Buf} {start : Nat} {l : List Nat}
    (hb : hasBytes f start l) :
    (List.range l.length).map (fun i => f (start + i)) = l := by
  apply List.ext_getElem
  · simp
  · intro i h1 h2
    simp only [List.getElem_map, List.getElem_range]
    rw [hb i h2]
    exact List.getD_eq_getElem l 0 h2

theorem and_192_ne {x : Nat} (h : x ≤ 63) : ¬(x &&& 0xC0 = 0xC0) := by
  have hle : x &&& 0xC0 ≤ x := Nat.and_le_left
  omega

theorem labelsWire_length_ge (ls : List (List Nat)) : ls.length ≤ (labelsWire ls).length := by
  induction ls with
  | nil => simp [labelsWire]
  | cons l ls ih =>
    rw [labelsWire_cons]
    simp only [List.length_append, labelWire, List.length_cons]
    omega

/-- The label-walking phase of read_qname over the wire image of a list of
    good labels, never jumping: it accumulates the lowercased labels and
    stops right after the terminating zero. -/
theorem readQnameGo_labels :
    ∀ (ls : List (List Nat)) (f : Buf) (pos : Nat)
      (_ : ∀ l ∈ ls, l ≠ [] ∧ l.length ≤ 63)
      (_ : hasBytes f pos (labelsWire ls ++ [0]))
      (_ : pos + (labelsWire ls).length + 1 ≤ 512)
      (fuel : Nat) (_ : ls.length < fuel)
      (curr : Nat) (_ : curr ≤ 5) (sp : Nat) (out delim : List Nat),
      readQnameGo f fuel pos false curr sp out delim =
        .ok (out ++ joinLower delim ls) (pos + (labelsWire ls).length + 1) curr := by
  intro ls
  induction ls with
  | nil =>
    intro f pos hg hb hle fuel hfuel curr hcurr sp out delim
    cases fuel with
    | zero => omega
    | succ fz =>
      have h0 : f pos = 0 := by
        have := hb 0 (by simp [labelsWire])
        simpa [labelsWire] using this
      simp only [readQnameGo]
      rw [if_neg (by omega), if_neg (by simp [labelsWire] at hle; omega)]
      rw [h0]
      rw [if_neg (by decide)]
      rw [if_pos rfl]
      simp [joinLower, labelsWire]
  | cons l ls ih =>
    intro f pos hg hb hle fuel hfuel curr hcurr sp out delim
    cases fuel with
    | zero => omega
    | succ fz =>
      have hbsplit : hasBytes f pos (labelWire l) ∧
          hasBytes f (pos + (labelWire l).length) (labelsWire ls ++ [0]) := by
        have := hb
        rw [labelsWire_cons, List.append_assoc] at this
        exact hasBytes_append.mp this
      obtain ⟨hbl, hbrest⟩ := hbsplit
      have hlen : f pos = l.length := by
        have := hbl 0 (by simp [labelWire])
        simpa [labelWire] using this
      obtain ⟨hne, hle63⟩ := hg l (by simp)
      have hlw : (labelWire l).length = l.length + 1 := by simp [labelWire]
      have hlsw : (labelsWire (l :: ls)).length = l.length + 1 + (labelsWire ls).length := by
        rw [labelsWire_cons]
        simp [hlw]
      rw [hlsw] at hle
      have hposlt : pos < 512 := by omega
      have hbody : hasBytes f (pos + 1) l := by
        intro i hi
        have hx := hbl (i + 1) (by simp [labelWire]; omega)
        rw [show pos + (i + 1) = pos + 1 + i by omega] at hx
        simpa [labelWire] using hx
      have hl0 : ¬(l.length = 0) := fun hz => hne (List.length_eq_zero.mp hz)
      have hbrest2 : hasBytes f (pos + 1 + l.length) (labelsWire ls ++ [0]) := by
        rw [show pos + 1 + l.length = pos + (labelWire l).length by rw [hlw]; omega]
        exact hbrest
      simp only [readQnameGo]
      rw [if_neg (by omega), if_neg (by omega)]
      rw [hlen]
      rw [if_neg (and_192_ne hle63)]
      rw [if_neg hl0]
      rw [if_neg (by omega)]
      rw [range_map_hasBytes hbody]
      have hrec := ih f (pos + 1 + l.length) (fun m hm => hg m (by simp [hm]))
        hbrest2 (by omega) fz (by simp at hfuel; omega) curr hcurr sp
        (out ++ delim ++ lowerBytes l) [46]
      rw [hrec]
      have houts : out ++ delim ++ lowerBytes l ++ joinLower [46] ls =
          out ++ joinLower delim (l :: ls) := by
        simp [joinLower]
      have hpossum : pos + 1 + l.length + (labelsWire ls).length + 1 =
          pos + (labelsWire (l :: ls)).length + 1 := by
        rw [hlsw]
        ring
      rw [houts, hpossum]

/-- Reading back a written name: read_qname over the wire image of a good
    name returns the lowercased name appended to the accumulator and leaves
    the cursor right past the terminator. -/
theorem read_qname_spec {c : BytePacketBuffer} {n : List Nat}
    (hn : goodName n)
    (hb : hasBytes c.buf c.pos (qnameWire n))
    (hle : c.pos + (qnameWire n).length ≤ 512) (out : List Nat) :
    c.read_qname out =
      .ok (out ++ lowerBytes n, { c with pos := c.pos + (qnameWire n).length }) := by
  have hqlen : (qnameWire n).length = (labelsWire (n.splitOn 46)).length + 1 := by
    simp [qnameWire]
  have hfuel : (n.splitOn 46).length < readQnameFuel := by
    have h1 := labelsWire_length_ge (n.splitOn 46)
    have h2 : (qnameWire n).length ≤ 512 := by omega
    rw [hqlen] at h2
    unfold readQnameFuel
    omega
  have hgo := readQnameGo_labels (n.splitOn 46) c.buf c.pos
    (fun l hl => ⟨(hn l hl).1, (hn l hl).2.1⟩)
    (by simpa [qnameWire] using hb)
    (by rw [hqlen] at hle; omega)
    readQnameFuel hfuel 0 (by omega) c.pos out []
  unfold BytePacketBuffer.read_qname
  rw [hgo]
  rw [show joinLower [] (n.splitOn 46) = lowerBytes n from lowerBytes_eq_joinLower.symm]
  rw [show c.pos + (labelsWire (n.splitOn 46)).length + 1 = c.pos + (qnameWire n).length by
    rw [hqlen]; omega]

/- ------------------------------------------------------------------ -/
/- Header encode / decode round trip.                                  -/
/- ------------------------------------------------------------------ -/

theorem boolToNat_lt (b : Bool) (k : Nat) (hk : k ≤ 7) : boolToNat b <<< k < 256 := by
  have h2 : (2 : Nat) ^ k ≤ 2 ^ 7 := Nat.pow_le_pow_right (by omega) hk
  cases b <;> simp [boolToNat, Nat.shiftLeft_eq] <;> omega

theorem flagsA_lt (h : DNSHeader) : h.flagsA < 256 := by
  have h256 : (256 : Nat) = 2 ^ 8 := by norm_num
  unfold DNSHeader.flagsA
  rw [h256]
  apply Nat.or_lt_two_pow
  apply Nat.or_lt_two_pow
  apply Nat.or_lt_two_pow
  apply Nat.or_lt_two_pow
  · rw [← h256]; exact boolToNat_lt _ 0 (by omega)
  · rw [← h256]; exact boolToNat_lt _ 1 (by omega)
  · rw [← h256]; exact boolToNat_lt _ 2 (by omega)
  · rw [← h256]; exact Nat.mod_lt _ (by omega)
  · rw [← h256]; exact boolToNat_lt _ 7 (by omega)

theorem flagsB_lt (h : DNSHeader) : h.flagsB < 256 := by
  have h256 : (256 : Nat) = 2 ^ 8 := by norm_num
  unfold DNSHeader.flagsB
  rw [h256]
  apply Nat.or_lt_two_pow
  apply Nat.or_lt_two_pow
  apply Nat.or_lt_two_pow
  apply Nat.or_lt_two_pow
  · rw [← h256]; cases h.rescode <;> simp [ResultCode.toNum]
  · rw [← h256]; exact boolToNat_lt _ 4 (by omega)
  · rw [← h256]; exact boolToNat_lt _ 5 (by omega)
  · rw [← h256]; exact boolToNat_lt _ 6 (by omega)
  · rw [← h256]; exact boolToNat_lt _ 7 (by omega)

theorem flags_split_hi {fA fB : Nat} (h1 : fA < 256) (h2 : fB < 256) :
    (((fA <<< 8) ||| fB) >>> 8) % 256 = fA := by
  rw [lor_shl_add8 h2, shiftRight8]
  omega

theorem flags_split_lo {fA fB : Nat} (h2 : fB < 256) :
    (((fA <<< 8) ||| fB) &&& 0xFF) % 256 = fB := by
  rw [lor_shl_add8 h2, and_255]
  omega

theorem flagsA_bits (rd tm aa resp : Bool) (op : Nat) (hop : op < 16) :
    (decide ((boolToNat rd ||| (boolToNat tm <<< 1) ||| (boolToNat aa <<< 2) |||
        ((op <<< 3) % 256) ||| (boolToNat resp <<< 7)) &&& (1 <<< 0) > 0) = rd) ∧
    (decide ((boolToNat rd ||| (boolToNat tm <<< 1) ||| (boolToNat aa <<< 2) |||
        ((op <<< 3) % 256) ||| (boolToNat resp <<< 7)) &&& (1 <<< 1) > 0) = tm) ∧
    (decide ((boolToNat rd ||| (boolToNat tm <<< 1) ||| (boolToNat aa <<< 2) |||
        ((op <<< 3) % 256) ||| (boolToNat resp <<< 7)) &&& (1 <<< 2) > 0) = aa) ∧
    (((boolToNat rd ||| (boolToNat tm <<< 1) ||| (boolToNat aa <<< 2) |||
        ((op <<< 3) % 256) ||| (boolToNat resp <<< 7)) >>> 3) &&& 0x0F = op) ∧
    (decide ((boolToNat rd ||| (boolToNat tm <<< 1) ||| (boolToNat aa <<< 2) |||
        ((op <<< 3) % 256) ||| (boolToNat resp <<< 7)) &&& (1 <<< 7) > 0) = resp) := by
  interval_cases op <;> cases rd <;> cases tm <;> cases aa <;> cases resp <;>
    simp [boolToNat] <;> decide

theorem flagsB_bits (rc : ResultCode) (cd ad z ra : Bool) :
    (ResultCode.from_num ((rc.toNum ||| (boolToNat cd <<< 4) ||| (boolToNat ad <<< 5) |||
        (boolToNat z <<< 6) ||| (boolToNat ra <<< 7)) &&& 0x0F) = rc) ∧
    (decide ((rc.toNum ||| (boolToNat cd <<< 4) ||| (boolToNat ad <<< 5) |||
        (boolToNat z <<< 6) ||| (boolToNat ra <<< 7)) &&& (1 <<< 4) > 0) = cd) ∧
    (decide ((rc.toNum ||| (boolToNat cd <<< 4) ||| (boolToNat ad <<< 5) |||
        (boolToNat z <<< 6) ||| (boolToNat ra <<< 7)) &&& (1 <<< 5) > 0) = ad) ∧
    (decide ((rc.toNum ||| (boolToNat cd <<< 4) ||| (boolToNat ad <<< 5) |||
        (boolToNat z <<< 6) ||| (boolToNat ra <<< 7)) &&& (1 <<< 6) > 0) = z) ∧
    (decide ((rc.toNum ||| (boolToNat cd <<< 4) ||| (boolToNat ad <<< 5) |||
        (boolToNat z <<< 6) ||| (boolToNat ra <<< 7)) &&& (1 <<< 7) > 0) = ra) := by
  cases rc <;> cases cd <;> cases ad <;> cases z <;> cases ra <;>
    simp [boolToNat, ResultCode.toNum, ResultCode.from_num] <;> decide

theorem headerWire_length (h : DNSHeader) : (headerWire h).length = 12 := by
  simp [headerWire, u16Wire]

theorem flagsA_bits_h (h : DNSHeader) (hop : h.opcode < 16) :
    (decide (h.flagsA &&& (1 <<< 0) > 0) = h.recursion_desired) ∧
    (decide (h.flagsA &&& (1 <<< 1) > 0) = h.truncated_message) ∧
    (decide (h.flagsA &&& (1 <<< 2) > 0) = h.authoritative_answer) ∧
    ((h.flagsA >>> 3) &&& 0x0F = h.opcode) ∧
    (decide (h.flagsA &&& (1 <<< 7) > 0) = h.response) :=
  flagsA_bits h.recursion_desired h.truncated_message h.authoritative_answer
    h.response h.opcode hop

theorem flagsB_bits_h (h : DNSHeader) :
    (ResultCode.from_num (h.flagsB &&& 0x0F) = h.rescode) ∧
    (decide (h.flagsB &&& (1 <<< 4) > 0) = h.cheching_disabled) ∧
    (decide (h.flagsB &&& (1 <<< 5) > 0) = h.authed_data) ∧
    (decide (h.flagsB &&& (1 <<< 6) > 0) = h.z) ∧
    (decide (h.flagsB &&& (1 <<< 7) > 0) = h.recursion_available) :=
  flagsB_bits h.rescode h.cheching_disabled h.authed_data h.z h.recursion_available

theorem headerReadSpec {c : BytePacketBuffer} {h : DNSHeader}
    (hid : h.id < 65536) (hop : h.opcode < 16)
    (hq : h.questions < 65536) (ha : h.answers < 65536)
    (hau : h.authoritative_entries < 65536) (hr : h.resource_entries < 65536)
    (hb : hasBytes c.buf c.pos (headerWire h)) (hle : c.pos + 12 ≤ 512) :
    DNSHeader.read c = .ok (h, { c with pos := c.pos + 12 }) := by
  unfold headerWire at hb
  rw [hasBytes_append] at hb
  obtain ⟨hb, hbr⟩ := hb
  rw [hasBytes_append] at hb
  obtain ⟨hb, hbau⟩ := hb
  rw [hasBytes_append] at hb
  obtain ⟨hb, hba⟩ := hb
  rw [hasBytes_append] at hb
  obtain ⟨hb, hbq⟩ := hb
  rw [hasBytes_append] at hb
  obtain ⟨hbid, hbflags⟩ := hb
  simp only [u16Wire, List.length_cons, List.length_nil, List.length_append] at hbid hbflags hbq hba hbau hbr
  have hfa : c.buf (c.pos + 2) = h.flagsA := by
    have := hbflags 0 (by simp)
    simpa using this
  have hfb : c.buf (c.pos + 2 + 1) = h.flagsB := by
    have := hbflags 1 (by simp)
    rw [show c.pos + 2 + 1 = c.pos + (2 + 1) by omega]
    simpa using this
  unfold DNSHeader.read
  rw [read_u16_spec hid hbid (by omega)]
  dsimp only
  rw [read_u16_eq (c := { c with pos := c.pos + 2 }) (by dsimp only; omega)]
  dsimp only
  rw [hfa, hfb]
  rw [read_u16_spec (c := { c with pos := c.pos + 2 + 2 }) hq
    (by dsimp only; rw [show c.pos + 2 + 2 = c.pos + 4 by omega]; exact hbq)
    (by dsimp only; omega)]
  dsimp only
  rw [read_u16_spec (c := { c with pos := c.pos + 2 + 2 + 2 }) ha
    (by dsimp only; rw [show c.pos + 2 + 2 + 2 = c.pos + 6 by omega]; exact hba)
    (by dsimp only; omega)]
  dsimp only
  rw [read_u16_spec (c := { c with pos := c.pos + 2 + 2 + 2 + 2 }) hau
    (by dsimp only; rw [show c.pos + 2 + 2 + 2 + 2 = c.pos + 8 by omega]; exact hbau)
    (by dsimp only; omega)]
  dsimp only
  rw [read_u16_spec (c := { c with pos := c.pos + 2 + 2 + 2 + 2 + 2 }) hr
    (by dsimp only; rw [show c.pos + 2 + 2 + 2 + 2 + 2 = c.pos + 10 by omega]; exact hbr)
    (by dsimp only; omega)]
  dsimp only
  rw [flags_split_hi (flagsA_lt h) (flagsB_lt h), flags_split_lo (flagsB_lt h)]
  obtain ⟨e1, e2, e3, e4, e5⟩ := flagsA_bits_h h hop
  obtain ⟨f1, f2, f3, f4, f5⟩ := flagsB_bits_h h
  rw [show c.pos + 2 + 2 + 2 + 2 + 2 + 2 = c.pos + 12 by omega]
  congr 1
  rw [Prod.mk.injEq]
  constructor
  · rw [DNSHeader.mk.injEq]
    exact ⟨rfl, e1, e2, e3, e4, e5, f1, f2, f3, f4, f5, rfl, rfl, rfl, rfl⟩
  · rfl

/- ------------------------------------------------------------------ -/
/- Write specifications for header, question and records.              -/
/- ------------------------------------------------------------------ -/

theorem headerWriteSpec {b b' : BytePacketBuffer} {h : DNSHeader}
    (hw : h.write b = .ok b') : writesBytes b b' (headerWire h) := by
  unfold DNSHeader.write at hw
  split at hw
  · cases hw
  next b1 h1 =>
    split at hw
    · cases hw
    next b2 h2 =>
      split at hw
      · cases hw
      next b3 h3 =>
        split at hw
        · cases hw
        next b4 h4 =>
          split at hw
          · cases hw
          next b5 h5 =>
            split at hw
            · cases hw
            next b6 h6 =>
              have w1 := write_u16_spec h1
              have w2 := write_u8_spec h2
              have w3 := write_u8_spec h3
              have w4 := write_u16_spec h4
              have w5 := write_u16_spec h5
              have w6 := write_u16_spec h6
              have w7 := write_u16_spec hw
              rw [Nat.mod_eq_of_lt (flagsA_lt h)] at w2
              rw [Nat.mod_eq_of_lt (flagsB_lt h)] at w3
              have hall := writesBytes_append (writesBytes_append (writesBytes_append
                (writesBytes_append (writesBytes_append (writesBytes_append w1 w2) w3) w4)
                w5) w6) w7
              unfold headerWire
              have hshape : ([h.flagsA] ++ [h.flagsB] : List Nat) = [h.flagsA, h.flagsB] := rfl
              rw [show (u16Wire h.id ++ [h.flagsA, h.flagsB] : List Nat) =
                u16Wire h.id ++ [h.flagsA] ++ [h.flagsB] by rw [List.append_assoc, hshape]]
              exact hall

theorem goodName_bytes {n : List Nat} (hn : goodName n) :
    ∀ l ∈ n.splitOn 46, ∀ x ∈ l, x < 256 := by
  intro l hl x hx
  have := (hn l hl).2.2 x hx
  omega

theorem questionWriteSpec {b b' : BytePacketBuffer} {q : DNSQuestion}
    (hw : q.write b = .ok b') (hn : goodName q.name) (hp : b.pos ≤ 512) :
    writesBytes b b' (questionWire q) := by
  unfold DNSQuestion.write at hw
  split at hw
  · cases hw
  next b1 h1 =>
    split at hw
    · cases hw
    next b2 h2 =>
      have w1 := write_qname_spec h1 (goodName_bytes hn) hp
      have w2 := write_u16_spec h2
      have w3 := write_u16_spec hw
      exact writesBytes_append (writesBytes_append w1 w2) w3

theorem u16Wire_zero : u16Wire 0 = [0, 0] := rfl

theorem mod_mod_256 (x : Nat) : x % 256 % 256 = x % 256 := by omega

theorem recordWriteSpec {b b' : BytePacketBuffer} {r : DNSRecord} {sz : Nat}
    (hw : r.write b = .ok (sz, b')) (hg : goodRecord r) (hp : b.pos ≤ 512) :
    writesBytes b b' (recordWire r) := by
  cases r with
  | UNKNOWN d q dl t => exact absurd hg (by simp [goodRecord])
  | A d a t =>
    obtain ⟨hd, ht, h0, h1, h2, h3⟩ := hg
    simp only [DNSRecord.write] at hw
    split at hw
    · cases hw
    next b1 hw1 =>
      split at hw
      · cases hw
      next b2 hw2 =>
        split at hw
        · cases hw
        next b3 hw3 =>
          split at hw
          · cases hw
          next b4 hw4 =>
            split at hw
            · cases hw
            next b5 hw5 =>
              split at hw
              · cases hw
              next b6 hw6 =>
                split at hw
                · cases hw
                next b7 hw7 =>
                  split at hw
                  · cases hw
                  next b8 hw8 =>
                    split at hw
                    · cases hw
                    next b9 hw9 =>
                      injection hw with hw
                      injection hw with hsz hw
                      subst hw
                      have w1 := write_qname_spec hw1 (goodName_bytes hd) hp
                      have w2 := write_u16_spec hw2
                      have w3 := write_u16_spec hw3
                      have w4 := write_u32_spec hw4
                      have w5 := write_u16_spec hw5
                      have w6 := write_u8_spec hw6
                      have w7 := write_u8_spec hw7
                      have w8 := write_u8_spec hw8
                      have w9 := write_u8_spec hw9
                      rw [mod_mod_256] at w6 w7 w8 w9
                      have hall := writesBytes_append (writesBytes_append (writesBytes_append
                        (writesBytes_append (writesBytes_append (writesBytes_append
                        (writesBytes_append (writesBytes_append w1 w2) w3) w4) w5) w6) w7) w8) w9
                      show writesBytes b b9 (qnameWire d ++ u16Wire 1 ++ u16Wire 1 ++ u32Wire t ++
                        u16Wire 4 ++ [a.o0 % 256, a.o1 % 256, a.o2 % 256, a.o3 % 256])
                      have hconv : (qnameWire d ++ u16Wire 1 ++ u16Wire 1 ++ u32Wire t ++
                          u16Wire 4 ++ [a.o0 % 256, a.o1 % 256, a.o2 % 256, a.o3 % 256] : List Nat) =
                          qnameWire d ++ u16Wire QueryType.A.to_num ++ u16Wire 1 ++ u32Wire t ++
                          u16Wire 4 ++ [a.o0 % 256] ++ [a.o1 % 256] ++ [a.o2 % 256] ++
                          [a.o3 % 256] := by
                        simp [List.append_assoc, QueryType.to_num]
                      rw [hconv]
                      exact hall
  | AAAA d a t =>
    obtain ⟨hd, ht, hs0, hs1, hs2, hs3, hs4, hs5, hs6, hs7⟩ := hg
    simp only [DNSRecord.write] at hw
    split at hw
    · cases hw
    next b1 hw1 =>
      split at hw
      · cases hw
      next b2 hw2 =>
        split at hw
        · cases hw
        next b3 hw3 =>
          split at hw
          · cases hw
          next b4 hw4 =>
            split at hw
            · cases hw
            next b5 hw5 =>
              split at hw
              · cases hw
              next b6 hw6 =>
                split at hw
                · cases hw
                next b7 hw7 =>
                  split at hw
                  · cases hw
                  next b8 hw8 =>
                    split at hw
                    · cases hw
                    next b9 hw9 =>
                      split at hw
                      · cases hw
                      next b10 hw10 =>
                        split at hw
                        · cases hw
                        next b11 hw11 =>
                          split at hw
                          · cases hw
                          next b12 hw12 =>
                            split at hw
                            · cases hw
                            next b13 hw13 =>
                              injection hw with hw
                              injection hw with hsz hw
                              subst hw
                              have hall := writesBytes_append (writesBytes_append
                                (writesBytes_append (writesBytes_append (writesBytes_append
                                (writesBytes_append (writesBytes_append (writesBytes_append
                                (writesBytes_append (writesBytes_append (writesBytes_append
                                (writesBytes_append
                                (write_qname_spec hw1 (goodName_bytes hd) hp)
                                (write_u16_spec hw2)) (write_u16_spec hw3))
                                (write_u32_spec hw4)) (write_u16_spec hw5))
                                (write_u16_spec hw6)) (write_u16_spec hw7))
                                (write_u16_spec hw8)) (write_u16_spec hw9))
                                (write_u16_spec hw10)) (write_u16_spec hw11))
                                (write_u16_spec hw12)) (write_u16_spec hw13)
                              exact hall
  | NS d h t =>
    obtain ⟨hd, hh, ht⟩ := hg
    simp only [DNSRecord.write] at hw
    split at hw
    · cases hw
    next b1 hw1 =>
      split at hw
      · cases hw
      next b2 hw2 =>
        split at hw
        · cases hw
        next b3 hw3 =>
          split at hw
          · cases hw
          next b4 hw4 =>
            split at hw
            · cases hw
            next b5 hw5 =>
              split at hw
              · cases hw
              next b6 hw6 =>
                split at hw
                · cases hw
                next b7 hw7 =>
                  injection hw with hw
                  injection hw with hsz hw
                  subst hw
                  have w1 := write_qname_spec hw1 (goodName_bytes hd) hp
                  have w2 := write_u16_spec hw2
                  have w3 := write_u16_spec hw3
                  have w4 := write_u32_spec hw4
                  have w5 := write_u16_spec hw5
                  have w6 := write_qname_spec hw6 (goodName_bytes hh) (writesBytes_pos_le w5)
                  rw [u16Wire_zero] at w5
                  have wpre := writesBytes_append (writesBytes_append (writesBytes_append w1 w2) w3) w4
                  have whole := writesBytes_append (writesBytes_append wpre w5) w6
                  have hb4pos : b4.pos = b.pos +
                      (qnameWire d ++ u16Wire 2 ++ u16Wire 1 ++ u32Wire t).length := wpre.1
                  have hb6pos : b6.pos = b4.pos + 2 + (qnameWire h).length := by
                    have e5 := w5.1
                    have e6 := w6.1
                    simp only [List.length_cons, List.length_nil] at e5
                    omega
                  rw [show b4.pos = b.pos +
                      (qnameWire d ++ u16Wire 2 ++ u16Wire 1 ++ u32Wire t).length from hb4pos] at hw7
                  have hsize : b6.pos - (b.pos +
                      (qnameWire d ++ u16Wire 2 ++ u16Wire 1 ++ u32Wire t).length + 2) =
                      (qnameWire h).length := by
                    rw [hb6pos, hb4pos]
                    omega
                  rw [hsize] at hw7
                  have hpatch := writesBytes_patch whole hw7
                  exact hpatch
  | CNAME d h t =>
    obtain ⟨hd, hh, ht⟩ := hg
    simp only [DNSRecord.write] at hw
    split at hw
    · cases hw
    next b1 hw1 =>
      split at hw
      · cases hw
      next b2 hw2 =>
        split at hw
        · cases hw
        next b3 hw3 =>
          split at hw
          · cases hw
          next b4 hw4 =>
            split at hw
            · cases hw
            next b5 hw5 =>
              split at hw
              · cases hw
              next b6 hw6 =>
                split at hw
                · cases hw
                next b7 hw7 =>
                  injection hw with hw
                  injection hw with hsz hw
                  subst hw
                  have w1 := write_qname_spec hw1 (goodName_bytes hd) hp
                  have w2 := write_u16_spec hw2
                  have w3 := write_u16_spec hw3
                  have w4 := write_u32_spec hw4
                  have w5 := write_u16_spec hw5
                  have w6 := write_qname_spec hw6 (goodName_bytes hh) (writesBytes_pos_le w5)
                  rw [u16Wire_zero] at w5
                  have wpre := writesBytes_append (writesBytes_append (writesBytes_append w1 w2) w3) w4
                  have whole := writesBytes_append (writesBytes_append wpre w5) w6
                  have hb4pos : b4.pos = b.pos +
                      (qnameWire d ++ u16Wire 5 ++ u16Wire 1 ++ u32Wire t).length := wpre.1
                  have hb6pos : b6.pos = b4.pos + 2 + (qnameWire h).length := by
                    have e5 := w5.1
                    have e6 := w6.1
                    simp only [List.length_cons, List.length_nil] at e5
                    omega
                  rw [show b4.pos = b.pos +
                      (qnameWire d ++ u16Wire 5 ++ u16Wire 1 ++ u32Wire t).length from hb4pos] at hw7
                  have hsize : b6.pos - (b.pos +
                      (qnameWire d ++ u16Wire 5 ++ u16Wire 1 ++ u32Wire t).length + 2) =
                      (qnameWire h).length := by
                    rw [hb6pos, hb4pos]
                    omega
                  rw [hsize] at hw7
                  have hpatch := writesBytes_patch whole hw7
                  exact hpatch
  | MX d p h t =>
    obtain ⟨hd, hp16, hh, ht⟩ := hg
    simp only [DNSRecord.write] at hw
    split at hw
    · cases hw
    next b1 hw1 =>
      split at hw
      · cases hw
      next b2 hw2 =>
        split at hw
        · cases hw
        next b3 hw3 =>
          split at hw
          · cases hw
          next b4 hw4 =>
            split at hw
            · cases hw
            next b5 hw5 =>
              split at hw
              · cases hw
              next b6 hw6 =>
                split at hw
                · cases hw
                next b7 hw7 =>
                  split at hw
                  · cases hw
                  next b8 hw8 =>
                    injection hw with hw
                    injection hw with hsz hw
                    subst hw
                    have w1 := write_qname_spec hw1 (goodName_bytes hd) hp
                    have w2 := write_u16_spec hw2
                    have w3 := write_u16_spec hw3
                    have w4 := write_u32_spec hw4
                    have w5 := write_u16_spec hw5
                    have w6 := write_u16_spec hw6
                    have w7 := write_qname_spec hw7 (goodName_bytes hh) (writesBytes_pos_le w6)
                    rw [u16Wire_zero] at w5
                    have wpre := writesBytes_append (writesBytes_append (writesBytes_append w1 w2) w3) w4
                    have whole := writesBytes_append (writesBytes_append
                      (writesBytes_append wpre w5) w6) w7
                    have hb4pos : b4.pos = b.pos +
                        (qnameWire d ++ u16Wire 15 ++ u16Wire 1 ++ u32Wire t).length := wpre.1
                    have hb7pos : b7.pos = b4.pos + 2 + 2 + (qnameWire h).length := by
                      have e5 := w5.1
                      have e6 := w6.1
                      have e7 := w7.1
                      simp only [List.length_cons, List.length_nil, u16Wire] at e5 e6
                      omega
                    rw [show b4.pos = b.pos +
                        (qnameWire d ++ u16Wire 15 ++ u16Wire 1 ++ u32Wire t).length from hb4pos] at hw8
                    have hsize : b7.pos - (b.pos +
                        (qnameWire d ++ u16Wire 15 ++ u16Wire 1 ++ u32Wire t).length + 2) =
                        2 + (qnameWire h).length := by
                      rw [hb7pos, hb4pos]
                      omega
                    rw [hsize] at hw8
                    have hshape : (((qnameWire d ++ u16Wire 15 ++ u16Wire 1 ++ u32Wire t) ++
                        [0, 0]) ++ u16Wire p) ++ qnameWire h =
                        (qnameWire d ++ u16Wire 15 ++ u16Wire 1 ++ u32Wire t) ++ [0, 0] ++
                        (u16Wire p ++ qnameWire h) := by
                      simp [List.append_assoc]
                    simp only [QueryType.to_num] at whole
                    rw [hshape] at whole
                    have hpatch := writesBytes_patch whole hw8
                    have hshape2 : (qnameWire d ++ u16Wire 15 ++ u16Wire 1 ++ u32Wire t) ++
                        u16Wire ((2 + (qnameWire h).length) % 65536) ++ (u16Wire p ++ qnameWire h) =
                        qnameWire d ++ u16Wire 15 ++ u16Wire 1 ++ u32Wire t ++
                        u16Wire ((2 + (qnameWire h).length) % 65536) ++ u16Wire p ++ qnameWire h := by
                      simp [List.append_assoc]
                    rw [hshape2] at hpatch
                    exact hpatch

/- ------------------------------------------------------------------ -/
/- Question and record read-back.                                      -/
/- ------------------------------------------------------------------ -/

theorem and_65535 (v : Nat) : v &&& 0xFFFF = v % 65536 := by
  have := Nat.and_pow_two_sub_one_eq_mod v 16
  norm_num at this
  exact this

theorem to_num_lt {q : DNSQuestion} (hq : goodQuestion q) : q.qtype.to_num < 65536 := by
  obtain ⟨-, hmem⟩ := hq
  simp only [List.mem_cons, List.mem_singleton] at hmem
  rcases hmem with h | h | h | h | h | h <;>
    first
    | (rw [h]; decide)
    | simp at h

theorem from_num_to_num_supported {t : QueryType}
    (h : t ∈ [QueryType.A, .NS, .CNAME, .MX, .AAAA]) :
    QueryType.from_num t.to_num = t := by
  simp only [List.mem_cons, List.mem_singleton] at h
  rcases h with h | h | h | h | h | h <;>
    first
    | (rw [h]; rfl)
    | simp at h

theorem questionWire_length (q : DNSQuestion) :
    (questionWire q).length = (qnameWire q.name).length + 4 := by
  simp [questionWire, u16Wire]

theorem questionReadSpec {c : BytePacketBuffer} {q : DNSQuestion}
    (hgq : goodQuestion q)
    (hb : hasBytes c.buf c.pos (questionWire q))
    (hle : c.pos + (questionWire q).length ≤ 512) :
    (DNSQuestion.new [] (.UNKNOWN 0)).read c =
      .ok (lowerQuestion q, { c with pos := c.pos + (questionWire q).length }) := by
  obtain ⟨hgn, hmem⟩ := hgq
  rw [questionWire_length] at hle
  unfold questionWire at hb
  rw [hasBytes_append] at hb
  obtain ⟨hb, hbc⟩ := hb
  rw [hasBytes_append] at hb
  obtain ⟨hbn, hbt⟩ := hb
  simp only [List.length_append, u16Wire, List.length_cons, List.length_nil] at hbt hbc
  unfold DNSQuestion.read
  rw [read_qname_spec hgn hbn (by omega) (DNSQuestion.new [] (.UNKNOWN 0)).name]
  dsimp only
  rw [read_u16_spec (c := { c with pos := c.pos + (qnameWire q.name).length })
    (to_num_lt ⟨hgn, hmem⟩) (by dsimp only; exact hbt) (by dsimp only; omega)]
  dsimp only
  rw [read_u16_spec (c := { c with pos := c.pos + (qnameWire q.name).length + 2 })
    (v := 1) (by omega)
    (by dsimp only
        rw [show c.pos + (qnameWire q.name).length + 2 =
          c.pos + ((qnameWire q.name).length + 2) by omega]
        exact hbc)
    (by dsimp only; omega)]
  dsimp only
  have e1 : QueryType.from_num q.qtype.to_num = q.qtype := from_num_to_num_supported hmem
  have e2 : c.pos + (qnameWire q.name).length + 2 + 2 = c.pos + (questionWire q).length := by
    rw [questionWire_length]
    omega
  rw [e1, e2]
  rfl

theorem u32Wire_of_octets {o0 o1 o2 o3 : Nat} (h0 : o0 < 256) (h1 : o1 < 256)
    (h2 : o2 < 256) (h3 : o3 < 256) :
    [o0, o1, o2, o3] = u32Wire (((o0 * 256 + o1) * 256 + o2) * 256 + o3) := by
  have e0 : o0 = (((o0 * 256 + o1) * 256 + o2) * 256 + o3) >>> 24 % 256 := by
    rw [shiftRight24]
    omega
  have e1 : o1 = (((o0 * 256 + o1) * 256 + o2) * 256 + o3) >>> 16 % 256 := by
    rw [shiftRight16]
    omega
  have e2 : o2 = (((o0 * 256 + o1) * 256 + o2) * 256 + o3) >>> 8 % 256 := by
    rw [shiftRight8]
    omega
  have e3 : o3 = (((o0 * 256 + o1) * 256 + o2) * 256 + o3) % 256 := by
    omega
  unfold u32Wire
  exact List.cons_eq_cons.mpr ⟨e0, List.cons_eq_cons.mpr ⟨e1,
    List.cons_eq_cons.mpr ⟨e2, List.cons_eq_cons.mpr ⟨e3, rfl⟩⟩⟩⟩

theorem u16_pair_wire {s t : Nat} (hs : s < 65536) (ht : t < 65536) :
    u16Wire s ++ u16Wire t = u32Wire (s * 65536 + t) := by
  have e0 : (s >>> 8) % 256 = (s * 65536 + t) >>> 24 % 256 := by
    rw [shiftRight24, shiftRight8]
    omega
  have e1 : s % 256 = (s * 65536 + t) >>> 16 % 256 := by
    rw [shiftRight16]
    omega
  have e2 : (t >>> 8) % 256 = (s * 65536 + t) >>> 8 % 256 := by
    rw [shiftRight8, shiftRight8]
    omega
  have e3 : t % 256 = (s * 65536 + t) % 256 := by
    omega
  unfold u16Wire u32Wire
  simp only [List.cons_append, List.nil_append]
  exact List.cons_eq_cons.mpr ⟨e0, List.cons_eq_cons.mpr ⟨e1,
    List.cons_eq_cons.mpr ⟨e2, List.cons_eq_cons.mpr ⟨e3, rfl⟩⟩⟩⟩


theorem readSpecCNAME {c : BytePacketBuffer} {d h : List Nat} {t : Nat}
    (hg : goodRecord (.CNAME d h t))
    (hb : hasBytes c.buf c.pos (recordWire (.CNAME d h t)))
    (hle : c.pos + (recordWire (.CNAME d h t)).length ≤ 512) :
    DNSRecord.read c =
      .ok (lowerRecord (.CNAME d h t),
        { c with pos := c.pos + (recordWire (.CNAME d h t)).length }) := by
  obtain ⟨hd, hh, ht⟩ := hg
  simp only [recordWire] at hb
  rw [hasBytes_append] at hb
  obtain ⟨hb, hbh⟩ := hb
  rw [hasBytes_append] at hb
  obtain ⟨hb, hbdl⟩ := hb
  rw [hasBytes_append] at hb
  obtain ⟨hb, httl⟩ := hb
  rw [hasBytes_append] at hb
  obtain ⟨hb, hbcl⟩ := hb
  rw [hasBytes_append] at hb
  obtain ⟨hbqd, hbty⟩ := hb
  simp only [recordWire, List.length_append, u16Wire, u32Wire, List.length_cons,
    List.length_nil] at hbty hbcl httl hbdl hbh hle
  unfold DNSRecord.read
  rw [read_qname_spec hd hbqd (by omega) []]
  dsimp only
  rw [read_u16_spec (c := { c with pos := c.pos + (qnameWire d).length }) (v := 5) (by omega)
    (by dsimp only; exact hbty) (by dsimp only; omega)]
  dsimp only
  rw [read_u16_spec (c := { c with pos := c.pos + (qnameWire d).length + 2 }) (v := 1) (by omega)
    (by dsimp only
        rw [show c.pos + (qnameWire d).length + 2 =
          c.pos + ((qnameWire d).length + 2) by omega]
        exact hbcl)
    (by dsimp only; omega)]
  dsimp only
  rw [read_u32_spec (c := { c with pos := c.pos + (qnameWire d).length + 2 + 2 }) ht
    (by dsimp only
        rw [show c.pos + (qnameWire d).length + 2 + 2 =
          c.pos + ((qnameWire d).length + (2 + 2)) by omega]
        exact httl)
    (by dsimp only; omega)]
  dsimp only
  rw [read_u16_spec (c := { c with pos := c.pos + (qnameWire d).length + 2 + 2 + 4 })
    (v := (qnameWire h).length % 65536) (by omega)
    (by dsimp only
        rw [show c.pos + (qnameWire d).length + 2 + 2 + 4 =
          c.pos + ((qnameWire d).length + (2 + 2 + 4)) by omega]
        exact hbdl)
    (by dsimp only; omega)]
  dsimp only
  rw [show QueryType.from_num 5 = QueryType.CNAME from rfl]
  dsimp only
  rw [read_qname_spec (c := { c with pos := c.pos + (qnameWire d).length + 2 + 2 + 4 + 2 })
    hh
    (by dsimp only
        rw [show c.pos + (qnameWire d).length + 2 + 2 + 4 + 2 =
          c.pos + ((qnameWire d).length + (2 + 2 + 4 + 2)) by omega]
        exact hbh)
    (by dsimp only; omega) []]
  dsimp only
  have efin : c.pos + (qnameWire d).length + 2 + 2 + 4 + 2 + (qnameWire h).length =
      c.pos + (recordWire (DNSRecord.CNAME d h t)).length := by
    simp only [recordWire, List.length_append, u16Wire, u32Wire, List.length_cons,
      List.length_nil]
    omega
  rw [efin]
  rfl

theorem readSpecMX {c : BytePacketBuffer} {d : List Nat} {p : Nat} {h : List Nat} {t : Nat}
    (hg : goodRecord (.MX d p h t))
    (hb : hasBytes c.buf c.pos (recordWire (.MX d p h t)))
    (hle : c.pos + (recordWire (.MX d p h t)).length ≤ 512) :
    DNSRecord.read c =
      .ok (lowerRecord (.MX d p h t),
        { c with pos := c.pos + (recordWire (.MX d p h t)).length }) := by
  obtain ⟨hd, hp16, hh, ht⟩ := hg
  simp only [recordWire] at hb
  rw [hasBytes_append] at hb
  obtain ⟨hb, hbh⟩ := hb
  rw [hasBytes_append] at hb
  obtain ⟨hb, hbp⟩ := hb
  rw [hasBytes_append] at hb
  obtain ⟨hb, hbdl⟩ := hb
  rw [hasBytes_append] at hb
  obtain ⟨hb, httl⟩ := hb
  rw [hasBytes_append] at hb
  obtain ⟨hb, hbcl⟩ := hb
  rw [hasBytes_append] at hb
  obtain ⟨hbqd, hbty⟩ := hb
  simp only [recordWire, List.length_append, u16Wire, u32Wire, List.length_cons,
    List.length_nil] at hbty hbcl httl hbdl hbp hbh hle
  unfold DNSRecord.read
  rw [read_qname_spec hd hbqd (by omega) []]
  dsimp only
  rw [read_u16_spec (c := { c with pos := c.pos + (qnameWire d).length }) (v := 15) (by omega)
    (by dsimp only; exact hbty) (by dsimp only; omega)]
  dsimp only
  rw [read_u16_spec (c := { c with pos := c.pos + (qnameWire d).length + 2 }) (v := 1) (by omega)
    (by dsimp only
        rw [show c.pos + (qnameWire d).length + 2 =
          c.pos + ((qnameWire d).length + 2) by omega]
        exact hbcl)
    (by dsimp only; omega)]
  dsimp only
  rw [read_u32_spec (c := { c with pos := c.pos + (qnameWire d).length + 2 + 2 }) ht
    (by dsimp only
        rw [show c.pos + (qnameWire d).length + 2 + 2 =
          c.pos + ((qnameWire d).length + (2 + 2)) by omega]
        exact httl)
    (by dsimp only; omega)]
  dsimp only
  rw [read_u16_spec (c := { c with pos := c.pos + (qnameWire d).length + 2 + 2 + 4 })
    (v := (2 + (qnameWire h).length) % 65536) (by omega)
    (by dsimp only
        rw [show c.pos + (qnameWire d).length + 2 + 2 + 4 =
          c.pos + ((qnameWire d).length + (2 + 2 + 4)) by omega]
        exact hbdl)
    (by dsimp only; omega)]
  dsimp only
  rw [show QueryType.from_num 15 = QueryType.MX from rfl]
  dsimp only
  rw [read_u16_spec (c := { c with pos := c.pos + (qnameWire d).length + 2 + 2 + 4 + 2 })
    (v := p) hp16
    (by dsimp only
        rw [show c.pos + (qnameWire d).length + 2 + 2 + 4 + 2 =
          c.pos + ((qnameWire d).length + (2 + 2 + 4 + 2)) by omega]
        exact hbp)
    (by dsimp only; omega)]
  dsimp only
  rw [read_qname_spec (c := { c with pos := c.pos + (qnameWire d).length + 2 + 2 + 4 + 2 + 2 })
    hh
    (by dsimp only
        rw [show c.pos + (qnameWire d).length + 2 + 2 + 4 + 2 + 2 =
          c.pos + ((qnameWire d).length + (2 + 2 + 4 + 2 + 2)) by omega]
        exact hbh)
    (by dsimp only; omega) []]
  dsimp only
  have efin : c.pos + (qnameWire d).length + 2 + 2 + 4 + 2 + 2 + (qnameWire h).length =
      c.pos + (recordWire (DNSRecord.MX d p h t)).length := by
    simp only [recordWire, List.length_append, u16Wire, u32Wire, List.length_cons,
      List.length_nil]
    omega
  rw [efin]
  rfl

theorem readSpecAAAA {c : BytePacketBuffer} {d : List Nat} {a : Ipv6Addr} {t : Nat}
    (hg : goodRecord (.AAAA d a t))
    (hb : hasBytes c.buf c.pos (recordWire (.AAAA d a t)))
    (hle : c.pos + (recordWire (.AAAA d a t)).length ≤ 512) :
    DNSRecord.read c =
      .ok (lowerRecord (.AAAA d a t),
        { c with pos := c.pos + (recordWire (.AAAA d a t)).length }) := by
  obtain ⟨hd, ht, hs0, hs1, hs2, hs3, hs4, hs5, hs6, hs7⟩ := hg
  have hre : recordWire (.AAAA d a t) =
      qnameWire d ++ u16Wire 28 ++ u16Wire 1 ++ u32Wire t ++ u16Wire 16 ++
      u32Wire (a.s0 * 65536 + a.s1) ++ u32Wire (a.s2 * 65536 + a.s3) ++
      u32Wire (a.s4 * 65536 + a.s5) ++ u32Wire (a.s6 * 65536 + a.s7) := by
    simp only [recordWire]
    rw [← u16_pair_wire hs0 hs1, ← u16_pair_wire hs2 hs3, ← u16_pair_wire hs4 hs5,
        ← u16_pair_wire hs6 hs7]
    simp [List.append_assoc]
  rw [hre] at hb
  rw [hasBytes_append] at hb
  obtain ⟨hb, hbv3⟩ := hb
  rw [hasBytes_append] at hb
  obtain ⟨hb, hbv2⟩ := hb
  rw [hasBytes_append] at hb
  obtain ⟨hb, hbv1⟩ := hb
  rw [hasBytes_append] at hb
  obtain ⟨hb, hbv0⟩ := hb
  rw [hasBytes_append] at hb
  obtain ⟨hb, hbdl⟩ := hb
  rw [hasBytes_append] at hb
  obtain ⟨hb, httl⟩ := hb
  rw [hasBytes_append] at hb
  obtain ⟨hb, hbcl⟩ := hb
  rw [hasBytes_append] at hb
  obtain ⟨hbqd, hbty⟩ := hb
  simp only [List.length_append, u16Wire, u32Wire, List.length_cons, List.length_nil]
    at hbty hbcl httl hbdl hbv0 hbv1 hbv2 hbv3
  have hlen : c.pos + (qnameWire d).length + 26 ≤ 512 := by
    rw [hre] at hle
    simp only [List.length_append, u16Wire, u32Wire, List.length_cons, List.length_nil] at hle
    omega
  have hV : ∀ x y : Nat, x < 65536 → y < 65536 → x * 65536 + y < 2 ^ 32 := by
    intro x y hx hy
    have : (2 : Nat) ^ 32 = 4294967296 := by norm_num
    omega
  unfold DNSRecord.read
  rw [read_qname_spec hd hbqd (by omega) []]
  dsimp only
  rw [read_u16_spec (c := { c with pos := c.pos + (qnameWire d).length }) (v := 28) (by omega)
    (by dsimp only; exact hbty) (by dsimp only; omega)]
  dsimp only
  rw [read_u16_spec (c := { c with pos := c.pos + (qnameWire d).length + 2 }) (v := 1) (by omega)
    (by dsimp only
        rw [show c.pos + (qnameWire d).length + 2 =
          c.pos + ((qnameWire d).length + 2) by omega]
        exact hbcl)
    (by dsimp only; omega)]
  dsimp only
  rw [read_u32_spec (c := { c with pos := c.pos + (qnameWire d).length + 2 + 2 }) ht
    (by dsimp only
        rw [show c.pos + (qnameWire d).length + 2 + 2 =
          c.pos + ((qnameWire d).length + (2 + 2)) by omega]
        exact httl)
    (by dsimp only; omega)]
  dsimp only
  rw [read_u16_spec (c := { c with pos := c.pos + (qnameWire d).length + 2 + 2 + 4 })
    (v := 16) (by omega)
    (by dsimp only
        rw [show c.pos + (qnameWire d).length + 2 + 2 + 4 =
          c.pos + ((qnameWire d).length + (2 + 2 + 4)) by omega]
        exact hbdl)
    (by dsimp only; omega)]
  dsimp only
  rw [show QueryType.from_num 28 = QueryType.AAAA from rfl]
  dsimp only
  rw [read_u32_spec (c := { c with pos := c.pos + (qnameWire d).length + 2 + 2 + 4 + 2 })
    (hV _ _ hs0 hs1)
    (by dsimp only
        rw [show c.pos + (qnameWire d).length + 2 + 2 + 4 + 2 =
          c.pos + ((qnameWire d).length + (2 + 2 + 4 + 2)) by omega]
        exact hbv0)
    (by dsimp only; omega)]
  dsimp only
  rw [read_u32_spec (c := { c with pos := c.pos + (qnameWire d).length + 2 + 2 + 4 + 2 + 4 })
    (hV _ _ hs2 hs3)
    (by dsimp only
        rw [show c.pos + (qnameWire d).length + 2 + 2 + 4 + 2 + 4 =
          c.pos + ((qnameWire d).length + (2 + 2 + 4 + 2 + 4)) by omega]
        exact hbv1)
    (by dsimp only; omega)]
  dsimp only
  rw [read_u32_spec (c := { c with pos := c.pos + (qnameWire d).length + 2 + 2 + 4 + 2 + 4 + 4 })
    (hV _ _ hs4 hs5)
    (by dsimp only
        rw [show c.pos + (qnameWire d).length + 2 + 2 + 4 + 2 + 4 + 4 =
          c.pos + ((qnameWire d).length + (2 + 2 + 4 + 2 + 4 + 4)) by omega]
        exact hbv2)
    (by dsimp only; omega)]
  dsimp only
  rw [read_u32_spec
    (c := { c with pos := c.pos + (qnameWire d).length + 2 + 2 + 4 + 2 + 4 + 4 + 4 })
    (hV _ _ hs6 hs7)
    (by dsimp only
        rw [show c.pos + (qnameWire d).length + 2 + 2 + 4 + 2 + 4 + 4 + 4 =
          c.pos + ((qnameWire d).length + (2 + 2 + 4 + 2 + 4 + 4 + 4)) by omega]
        exact hbv3)
    (by dsimp only; omega)]
  dsimp only
  have ex0 : (((a.s0 * 65536 + a.s1) >>> 16) &&& 0xFFFF) % 65536 = a.s0 := by
    rw [shiftRight16, and_65535]
    omega
  have ex1 : (((a.s0 * 65536 + a.s1) >>> 0) &&& 0xFFFF) % 65536 = a.s1 := by
    rw [Nat.shiftRight_zero, and_65535]
    omega
  have ex2 : (((a.s2 * 65536 + a.s3) >>> 16) &&& 0xFFFF) % 65536 = a.s2 := by
    rw [shiftRight16, and_65535]
    omega
  have ex3 : (((a.s2 * 65536 + a.s3) >>> 0) &&& 0xFFFF) % 65536 = a.s3 := by
    rw [Nat.shiftRight_zero, and_65535]
    omega
  have ex4 : (((a.s4 * 65536 + a.s5) >>> 16) &&& 0xFFFF) % 65536 = a.s4 := by
    rw [shiftRight16, and_65535]
    omega
  have ex5 : (((a.s4 * 65536 + a.s5) >>> 0) &&& 0xFFFF) % 65536 = a.s5 := by
    rw [Nat.shiftRight_zero, and_65535]
    omega
  have ex6 : (((a.s6 * 65536 + a.s7) >>> 16) &&& 0xFFFF) % 65536 = a.s6 := by
    rw [shiftRight16, and_65535]
    omega
  have ex7 : (((a.s6 * 65536 + a.s7) >>> 0) &&& 0xFFFF) % 65536 = a.s7 := by
    rw [Nat.shiftRight_zero, and_65535]
    omega
  rw [ex0, ex1, ex2, ex3, ex4, ex5, ex6, ex7]
  have efin : c.pos + (qnameWire d).length + 2 + 2 + 4 + 2 + 4 + 4 + 4 + 4 =
      c.pos + (recordWire (DNSRecord.AAAA d a t)).length := by
    simp only [recordWire, List.length_append, u16Wire, u32Wire, List.length_cons,
      List.length_nil]
    omega
  rw [efin]
  rfl

theorem recordReadSpec {c : BytePacketBuffer} {r : DNSRecord}
    (hg : goodRecord r)
    (hb : hasBytes c.buf c.pos (recordWire r))
    (hle : c.pos + (recordWire r).length ≤ 512) :
    DNSRecord.read c = .ok (lowerRecord r, { c with pos := c.pos + (recordWire r).length }) := by
  cases r with
  | UNKNOWN d q dl t => exact absurd hg (by simp [goodRecord])
  | A d a t =>
    obtain ⟨hd, ht, h0, h1, h2, h3⟩ := hg
    simp only [recordWire] at hb hle
    have hmod : [a.o0 % 256, a.o1 % 256, a.o2 % 256, a.o3 % 256] = [a.o0, a.o1, a.o2, a.o3] := by
      rw [Nat.mod_eq_of_lt h0, Nat.mod_eq_of_lt h1, Nat.mod_eq_of_lt h2, Nat.mod_eq_of_lt h3]
    rw [hmod] at hb
    rw [u32Wire_of_octets h0 h1 h2 h3] at hb
    rw [hasBytes_append] at hb
    obtain ⟨hb, hbaddr⟩ := hb
    rw [hasBytes_append] at hb
    obtain ⟨hb, hbdl⟩ := hb
    rw [hasBytes_append] at hb
    obtain ⟨hb, httl⟩ := hb
    rw [hasBytes_append] at hb
    obtain ⟨hb, hbcl⟩ := hb
    rw [hasBytes_append] at hb
    obtain ⟨hbqd, hbty⟩ := hb
    simp only [List.length_append, u16Wire, u32Wire, List.length_cons, List.length_nil]
      at hbty hbcl httl hbdl hbaddr hle
    set V : Nat := ((a.o0 * 256 + a.o1) * 256 + a.o2) * 256 + a.o3 with hV
    have hVlt : V < 2 ^ 32 := by
      rw [hV]
      have : (2 : Nat) ^ 32 = 4294967296 := by norm_num
      omega
    unfold DNSRecord.read
    rw [read_qname_spec hd hbqd (by omega) []]
    dsimp only
    rw [read_u16_spec (c := { c with pos := c.pos + (qnameWire d).length }) (v := 1) (by omega)
      (by dsimp only; exact hbty) (by dsimp only; omega)]
    dsimp only
    rw [read_u16_spec (c := { c with pos := c.pos + (qnameWire d).length + 2 }) (v := 1) (by omega)
      (by dsimp only
          rw [show c.pos + (qnameWire d).length + 2 =
            c.pos + ((qnameWire d).length + 2) by omega]
          exact hbcl)
      (by dsimp only; omega)]
    dsimp only
    rw [read_u32_spec (c := { c with pos := c.pos + (qnameWire d).length + 2 + 2 }) ht
      (by dsimp only
          rw [show c.pos + (qnameWire d).length + 2 + 2 =
            c.pos + ((qnameWire d).length + (2 + 2)) by omega]
          exact httl)
      (by dsimp only; omega)]
    dsimp only
    rw [read_u16_spec (c := { c with pos := c.pos + (qnameWire d).length + 2 + 2 + 4 })
      (v := 4) (by omega)
      (by dsimp only
          rw [show c.pos + (qnameWire d).length + 2 + 2 + 4 =
            c.pos + ((qnameWire d).length + (2 + 2 + 4)) by omega]
          exact hbdl)
      (by dsimp only; omega)]
    dsimp only
    rw [show QueryType.from_num 1 = QueryType.A from rfl]
    dsimp only
    rw [read_u32_spec (c := { c with pos := c.pos + (qnameWire d).length + 2 + 2 + 4 + 2 })
      hVlt
      (by dsimp only
          rw [show c.pos + (qnameWire d).length + 2 + 2 + 4 + 2 =
            c.pos + ((qnameWire d).length + (2 + 2 + 4 + 2)) by omega]
          exact hbaddr)
      (by dsimp only; omega)]
    dsimp only
    have ea0 : ((V >>> 24) &&& 0xFF) % 256 = a.o0 := by
      rw [and_255, shiftRight24, hV]
      omega
    have ea1 : ((V >>> 16) &&& 0xFF) % 256 = a.o1 := by
      rw [and_255, shiftRight16, hV]
      omega
    have ea2 : ((V >>> 8) &&& 0xFF) % 256 = a.o2 := by
      rw [and_255, shiftRight8, hV]
      omega
    have ea3 : ((V >>> 0) &&& 0xFF) % 256 = a.o3 := by
      rw [Nat.shiftRight_zero, and_255, hV]
      omega
    rw [ea0, ea1, ea2, ea3]
    have efin : c.pos + (qnameWire d).length + 2 + 2 + 4 + 2 + 4 =
        c.pos + (recordWire (DNSRecord.A d a t)).length := by
      simp only [recordWire, List.length_append, u16Wire, u32Wire, List.length_cons,
        List.length_nil]
      omega
    rw [efin]
    rfl
  | NS d h t =>
    obtain ⟨hd, hh, ht⟩ := hg
    simp only [recordWire] at hb hle
    rw [hasBytes_append] at hb
    obtain ⟨hb, hbh⟩ := hb
    rw [hasBytes_append] at hb
    obtain ⟨hb, hbdl⟩ := hb
    rw [hasBytes_append] at hb
    obtain ⟨hb, httl⟩ := hb
    rw [hasBytes_append] at hb
    obtain ⟨hb, hbcl⟩ := hb
    rw [hasBytes_append] at hb
    obtain ⟨hbqd, hbty⟩ := hb
    simp only [List.length_append, u16Wire, u32Wire, List.length_cons, List.length_nil]
      at hbty hbcl httl hbdl hbh hle
    unfold DNSRecord.read
    rw [read_qname_spec hd hbqd (by omega) []]
    dsimp only
    rw [read_u16_spec (c := { c with pos := c.pos + (qnameWire d).length }) (v := 2) (by omega)
      (by dsimp only; exact hbty) (by dsimp only; omega)]
    dsimp only
    rw [read_u16_spec (c := { c with pos := c.pos + (qnameWire d).length + 2 }) (v := 1) (by omega)
      (by dsimp only
          rw [show c.pos + (qnameWire d).length + 2 =
            c.pos + ((qnameWire d).length + 2) by omega]
          exact hbcl)
      (by dsimp only; omega)]
    dsimp only
    rw [read_u32_spec (c := { c with pos := c.pos + (qnameWire d).length + 2 + 2 }) ht
      (by dsimp only
          rw [show c.pos + (qnameWire d).length + 2 + 2 =
            c.pos + ((qnameWire d).length + (2 + 2)) by omega]
          exact httl)
      (by dsimp only; omega)]
    dsimp only
    rw [read_u16_spec (c := { c with pos := c.pos + (qnameWire d).length + 2 + 2 + 4 })
      (v := (qnameWire h).length % 65536) (by omega)
      (by dsimp only
          rw [show c.pos + (qnameWire d).length + 2 + 2 + 4 =
            c.pos + ((qnameWire d).length + (2 + 2 + 4)) by omega]
          exact hbdl)
      (by dsimp only; omega)]
    dsimp only
    rw [show QueryType.from_num 2 = QueryType.NS from rfl]
    dsimp only
    rw [read_qname_spec (c := { c with pos := c.pos + (qnameWire d).length + 2 + 2 + 4 + 2 })
      hh
      (by dsimp only
          rw [show c.pos + (qnameWire d).length + 2 + 2 + 4 + 2 =
            c.pos + ((qnameWire d).length + (2 + 2 + 4 + 2)) by omega]
          exact hbh)
      (by dsimp only; omega) []]
    dsimp only
    have efin : c.pos + (qnameWire d).length + 2 + 2 + 4 + 2 + (qnameWire h).length =
        c.pos + (recordWire (DNSRecord.NS d h t)).length := by
      simp only [recordWire, List.length_append, u16Wire, u32Wire, List.length_cons,
        List.length_nil]
      omega
    rw [efin]
    rfl
  | CNAME d h t =>
    exact readSpecCNAME hg hb hle
  | MX d p h t =>
    exact readSpecMX hg hb hle
  | AAAA d a t =>
    exact readSpecAAAA hg hb hle

/- ------------------------------------------------------------------ -/
/- Whole-message round trip.                                           -/
/- ------------------------------------------------------------------ -/

theorem writeQuestions_spec : ∀ {qs : List DNSQuestion} {b b' : BytePacketBuffer},
    writeQuestions b qs = .ok b' → (∀ q ∈ qs, goodQuestion q) → b.pos ≤ 512 →
    writesBytes b b' (qs.map questionWire).flatten := by
  intro qs
  induction qs with
  | nil =>
    intro b b' h _ hp
    injection h with h
    subst h
    exact writesBytes_nil hp
  | cons q qs ih =>
    intro b b' h hq hp
    unfold writeQuestions at h
    split at h
    · cases h
    next b1 h1 =>
      have w1 := questionWriteSpec h1 ((hq q (by simp)).1) hp
      have w2 := ih h (fun m hm => hq m (by simp [hm])) (writesBytes_pos_le w1)
      have := writesBytes_append w1 w2
      simpa using this

theorem writeRecords_spec : ∀ {rs : List DNSRecord} {b b' : BytePacketBuffer},
    writeRecords b rs = .ok b' → (∀ r ∈ rs, goodRecord r) → b.pos ≤ 512 →
    writesBytes b b' (rs.map recordWire).flatten := by
  intro rs
  induction rs with
  | nil =>
    intro b b' h _ hp
    injection h with h
    subst h
    exact writesBytes_nil hp
  | cons r rs ih =>
    intro b b' h hr hp
    unfold writeRecords at h
    split at h
    · cases h
    next sz b1 h1 =>
      have w1 := recordWriteSpec h1 (hr r (by simp)) hp
      have w2 := ih h (fun m hm => hr m (by simp [hm])) (writesBytes_pos_le w1)
      have := writesBytes_append w1 w2
      simpa using this

theorem readQuestions_spec : ∀ {qs : List DNSQuestion} {c : BytePacketBuffer},
    (∀ q ∈ qs, goodQuestion q) →
    hasBytes c.buf c.pos (qs.map questionWire).flatten →
    c.pos + ((qs.map questionWire).flatten).length ≤ 512 →
    readQuestions c qs.length =
      .ok (qs.map lowerQuestion,
        { c with pos := c.pos + ((qs.map questionWire).flatten).length }) := by
  intro qs
  induction qs with
  | nil =>
    intro c _ _ _
    rfl
  | cons q qs ih =>
    intro c hq hb hle
    simp only [List.map_cons, List.flatten_cons] at hb hle ⊢
    rw [hasBytes_append] at hb
    obtain ⟨hb1, hb2⟩ := hb
    simp only [List.length_append] at hle
    show readQuestions c (qs.length + 1) = _
    unfold readQuestions
    rw [questionReadSpec (hq q (by simp)) hb1 (by omega)]
    dsimp only
    rw [ih (fun m hm => hq m (by simp [hm]))
      (by dsimp only; exact hb2) (by dsimp only; omega)]
    dsimp only
    rw [show c.pos + (questionWire q).length + ((qs.map questionWire).flatten).length =
      c.pos + ((questionWire q).length + ((qs.map questionWire).flatten).length) by omega]
    rw [List.length_append]

theorem readRecords_spec : ∀ {rs : List DNSRecord} {c : BytePacketBuffer},
    (∀ r ∈ rs, goodRecord r) →
    hasBytes c.buf c.pos (rs.map recordWire).flatten →
    c.pos + ((rs.map recordWire).flatten).length ≤ 512 →
    readRecords c rs.length =
      .ok (rs.map lowerRecord,
        { c with pos := c.pos + ((rs.map recordWire).flatten).length }) := by
  intro rs
  induction rs with
  | nil =>
    intro c _ _ _
    rfl
  | cons r rs ih =>
    intro c hr hb hle
    simp only [List.map_cons, List.flatten_cons] at hb hle ⊢
    rw [hasBytes_append] at hb
    obtain ⟨hb1, hb2⟩ := hb
    simp only [List.length_append] at hle
    show readRecords c (rs.length + 1) = _
    unfold readRecords
    rw [recordReadSpec (hr r (by simp)) hb1 (by omega)]
    dsimp only
    rw [ih (fun m hm => hr m (by simp [hm]))
      (by dsimp only; exact hb2) (by dsimp only; omega)]
    dsimp only
    rw [show c.pos + (recordWire r).length + ((rs.map recordWire).flatten).length =
      c.pos + ((recordWire r).length + ((rs.map recordWire).flatten).length) by omega]
    rw [List.length_append]

theorem packetWriteSpec {p p' : DNSPacket} {b b' : BytePacketBuffer}
    (hw : p.write b = .ok (p', b')) (hg : goodPacket p) (hp : b.pos ≤ 512) :
    p' = normalizeCounts p ∧ writesBytes b b' (packetWire p) := by
  obtain ⟨hid, hop, hlq, hla, hlau, hlr, hgq, hga, hgau, hgr⟩ := hg
  unfold DNSPacket.write at hw
  dsimp only at hw
  split at hw
  · cases hw
  next b1 h1 =>
    split at hw
    · cases hw
    next b2 h2 =>
      split at hw
      · cases hw
      next b3 h3 =>
        split at hw
        · cases hw
        next b4 h4 =>
          split at hw
          · cases hw
          next b5 h5 =>
            injection hw with hw
            injection hw with hp' hb'
            subst hb'
            constructor
            · exact hp'.symm
            · have w1 := headerWriteSpec h1
              have w2 := writeQuestions_spec h2 hgq (writesBytes_pos_le w1)
              have w3 := writeRecords_spec h3 hga (writesBytes_pos_le w2)
              have w4 := writeRecords_spec h4 hgau (writesBytes_pos_le w3)
              have w5 := writeRecords_spec h5 hgr (writesBytes_pos_le w4)
              exact writesBytes_append (writesBytes_append (writesBytes_append
                (writesBytes_append w1 w2) w3) w4) w5

theorem fromBufferSpec {p : DNSPacket} {c : BytePacketBuffer}
    (hg : goodPacket p)
    (hb : hasBytes c.buf c.pos (packetWire p))
    (hle : c.pos + (packetWire p).length ≤ 512) :
    DNSPacket.from_buffer c =
      .ok (lowerPacket (normalizeCounts p),
        { c with pos := c.pos + (packetWire p).length }) := by
  obtain ⟨hid, hop, hlq, hla, hlau, hlr, hgq, hga, hgau, hgr⟩ := hg
  unfold packetWire at hb hle
  rw [hasBytes_append] at hb
  obtain ⟨hb, hbr⟩ := hb
  rw [hasBytes_append] at hb
  obtain ⟨hb, hbau⟩ := hb
  rw [hasBytes_append] at hb
  obtain ⟨hb, hba⟩ := hb
  rw [hasBytes_append] at hb
  obtain ⟨hbh, hbq⟩ := hb
  simp only [List.length_append, headerWire_length] at hbq hba hbau hbr hle
  have hcounts : (normalizeCounts p).header.questions = p.questions.length ∧
      (normalizeCounts p).header.answers = p.answers.length ∧
      (normalizeCounts p).header.authoritative_entries = p.authorities.length ∧
      (normalizeCounts p).header.resource_entries = p.resources.length := by
    unfold normalizeCounts
    refine ⟨?_, ?_, ?_, ?_⟩ <;> dsimp only <;> omega
  obtain ⟨hc1, hc2, hc3, hc4⟩ := hcounts
  unfold DNSPacket.from_buffer
  rw [headerReadSpec (h := (normalizeCounts p).header)
    (by unfold normalizeCounts; dsimp only; exact hid)
    (by unfold normalizeCounts; dsimp only; exact hop)
    (by rw [hc1]; exact hlq) (by rw [hc2]; exact hla)
    (by rw [hc3]; exact hlau) (by rw [hc4]; exact hlr)
    hbh (by omega)]
  dsimp only
  rw [hc1, hc2, hc3, hc4]
  rw [readQuestions_spec hgq (by dsimp only; exact hbq) (by dsimp only; omega)]
  dsimp only
  rw [readRecords_spec hga
    (by dsimp only
        rw [show c.pos + 12 + ((p.questions.map questionWire).flatten).length =
          c.pos + (12 + ((p.questions.map questionWire).flatten).length) by omega]
        exact hba)
    (by dsimp only; omega)]
  dsimp only
  rw [readRecords_spec hgau
    (by dsimp only
        rw [show c.pos + 12 + ((p.questions.map questionWire).flatten).length +
            ((p.answers.map recordWire).flatten).length =
          c.pos + (12 + ((p.questions.map questionWire).flatten).length +
            ((p.answers.map recordWire).flatten).length) by omega]
        exact hbau)
    (by dsimp only; omega)]
  dsimp only
  rw [readRecords_spec hgr
    (by dsimp only
        rw [show c.pos + 12 + ((p.questions.map questionWire).flatten).length +
            ((p.answers.map recordWire).flatten).length +
            ((p.authorities.map recordWire).flatten).length =
          c.pos + (12 + ((p.questions.map questionWire).flatten).length +
            ((p.answers.map recordWire).flatten).length +
            ((p.authorities.map recordWire).flatten).length) by omega]
        exact hbr)
    (by dsimp only; omega)]
  dsimp only
  rw [show c.pos + 12 + ((p.questions.map questionWire).flatten).length +
      ((p.answers.map recordWire).flatten).length +
      ((p.authorities.map recordWire).flatten).length +
      ((p.resources.map recordWire).flatten).length =
    c.pos + (12 + ((p.questions.map questionWire).flatten).length +
      ((p.answers.map recordWire).flatten).length +
      ((p.authorities.map recordWire).flatten).length +
      ((p.resources.map recordWire).flatten).length) by omega]
  have elen : (packetWire p).length = 12 + ((p.questions.map questionWire).flatten).length +
      ((p.answers.map recordWire).flatten).length +
      ((p.authorities.map recordWire).flatten).length +
      ((p.resources.map recordWire).flatten).length := by
    simp only [packetWire, List.length_append, headerWire_length]
  rw [elen]
  rw [show c.pos + (12 + ((p.questions.map questionWire).flatten).length +
      ((p.answers.map recordWire).flatten).length +
      ((p.authorities.map recordWire).flatten).length +
      ((p.resources.map recordWire).flatten).length) =
    c.pos + (12 + ((p.questions.map questionWire).flatten).length +
      ((p.answers.map recordWire).flatten).length +
      ((p.authorities.map recordWire).flatten).length +
      ((p.resources.map recordWire).flatten).length) from rfl]
  rfl



theorem roundtrip_modulo (p : DNSPacket) (hg : goodPacket p)
    (hw : exceptOk (DNSPacket.write p BytePacketBuffer.new) = true) :
    reDecode p = some (lowerPacket (normalizeCounts p)) := by
  unfold reDecode
  cases hwrite : DNSPacket.write p BytePacketBuffer.new with
  | error e =>
    rw [hwrite] at hw
    simp [exceptOk] at hw
  | ok pb =>
    obtain ⟨p', b'⟩ := pb
    obtain ⟨hp', hwb⟩ := packetWriteSpec hwrite hg (by simp [BytePacketBuffer.new])
    have hhas : hasBytes ({ b' with pos := 0 } : BytePacketBuffer).buf
        ({ b' with pos := 0 } : BytePacketBuffer).pos (packetWire p) := by
      dsimp only
      exact writesBytes_hasBytes hwb
    have hlen : ({ b' with pos := 0 } : BytePacketBuffer).pos + (packetWire p).length ≤ 512 := by
      dsimp only
      have h1 := hwb.1
      have h2 := hwb.2.1
      simp only [BytePacketBuffer.new] at h1
      omega
    dsimp only
    rw [fromBufferSpec hg hhas hlen]

/- ------------------------------------------------------------------ -/
/- Loop protection of read_qname.                                      -/
/- ------------------------------------------------------------------ -/



/-- Jump accounting invariant of the read_qname loop: with enough fuel the
    loop never runs out of fuel, a JumpLimit failure happens exactly after
    the sixth jump, and every other outcome followed at most five jumps. -/
theorem readQnameGo_invariant :
    ∀ (fuel : Nat) (f : Buf) (pos : Nat) (jumped : Bool) (curr sp : Nat)
      (out delim : List Nat), curr ≤ 6 →
      fuel ≥ (6 - curr) * 513 + (512 - pos) + 1 →
      (qnameErr (readQnameGo f fuel pos jumped curr sp out delim) = some .jumpLimit ∧
        qnameJumps (readQnameGo f fuel pos jumped curr sp out delim) = 6) ∨
      (qnameErr (readQnameGo f fuel pos jumped curr sp out delim) ≠ some .jumpLimit ∧
        qnameErr (readQnameGo f fuel pos jumped curr sp out delim) ≠ some .fuelOut ∧
        curr ≤ qnameJumps (readQnameGo f fuel pos jumped curr sp out delim) ∧
        qnameJumps (readQnameGo f fuel pos jumped curr sp out delim) ≤ 5) := by
  intro fuel
  induction fuel with
  | zero =>
    intro f pos jumped curr sp out delim hcurr hfuel
    omega
  | succ fz ih =>
    intro f pos jumped curr sp out delim hcurr hfuel
    simp only [readQnameGo]
    by_cases h1 : curr > 5
    · rw [if_pos h1]
      left
      refine ⟨rfl, ?_⟩
      simp only [qnameJumps]
      omega
    · rw [if_neg h1]
      by_cases h2 : pos ≥ 512
      · rw [if_pos h2]
        right
        refine ⟨by simp [qnameErr], by simp [qnameErr], ?_, ?_⟩ <;> simp [qnameJumps] <;> omega
      · rw [if_neg h2]
        by_cases h3 : f pos &&& 0xC0 = 0xC0
        · rw [if_pos h3]
          by_cases h4 : pos + 1 ≥ 512
          · rw [if_pos h4]
            right
            refine ⟨by simp [qnameErr], by simp [qnameErr], ?_, ?_⟩ <;>
              simp [qnameJumps] <;> omega
          · rw [if_neg h4]
            have hrec := ih f (((f pos ^^^ 0xC0) <<< 8) ||| f (pos + 1)) true (curr + 1)
              (if !jumped then pos + 2 else sp) out delim (by omega) (by omega)
            rcases hrec with ⟨he, hj⟩ | ⟨he, hf, hlo, hhi⟩
            · left
              exact ⟨he, hj⟩
            · right
              exact ⟨he, hf, by omega, hhi⟩
        · rw [if_neg h3]
          by_cases h5 : f pos = 0
          · rw [if_pos h5]
            right
            refine ⟨by simp [qnameErr], by simp [qnameErr], ?_, ?_⟩ <;>
              simp [qnameJumps] <;> omega
          · rw [if_neg h5]
            by_cases h6 : pos + 1 + f pos ≥ 512
            · rw [if_pos h6]
              right
              refine ⟨by simp [qnameErr], by simp [qnameErr], ?_, ?_⟩ <;>
                simp [qnameJumps] <;> omega
            · rw [if_neg h6]
              exact ih f (pos + 1 + f pos) jumped curr sp
                (out ++ delim ++ lowerBytes ((List.range (f pos)).map fun i => f (pos + 1 + i)))
                [46] hcurr (by omega)

/-- On a successful read_qname the loop leaves the cursor within bounds,
    provided the cursor recorded at the first jump was within bounds. -/
theorem readQnameGo_ok_pos :
    ∀ (fuel : Nat) (f : Buf) (pos : Nat) (jumped : Bool) (curr sp : Nat)
      (out delim o : List Nat) (sp' j : Nat),
      readQnameGo f fuel pos jumped curr sp out delim = .ok o sp' j →
      (jumped = true → sp ≤ 512) → sp' ≤ 512 := by
  intro fuel
  induction fuel with
  | zero =>
    intro f pos jumped curr sp out delim o sp' j h _
    cases h
  | succ fz ih =>
    intro f pos jumped curr sp out delim o sp' j h hsp
    simp only [readQnameGo] at h
    split at h
    · cases h
    next h1 =>
      split at h
      · cases h
      next h2 =>
        split at h
        next h3 =>
          split at h
          · cases h
          next h4 =>
            refine ih _ _ _ _ _ _ _ _ _ _ h ?_
            intro _
            cases jumped with
            | false => simp only [Bool.not_false, if_pos] at *; omega
            | true =>
              have := hsp rfl
              simpa using this
        next h3 =>
          split at h
          next h5 =>
            injection h with _ hsp' _
            subst hsp'
            cases jumped with
            | false => simp only [Bool.not_false, if_pos]; omega
            | true =>
              have := hsp rfl
              simpa using this
          next h5 =>
            split at h
            · cases h
            next h6 =>
              exact ih _ _ _ _ _ _ _ _ _ _ h hsp

/-- On success read_qname leaves the buffer cursor at most 512. -/
theorem read_qname_ok_pos {b : BytePacketBuffer} {out o : List Nat} {b' : BytePacketBuffer}
    (h : b.read_qname out = .ok (o, b')) : b'.pos ≤ 512 := by
  unfold BytePacketBuffer.read_qname at h
  split at h
  next o1 p1 j1 hgo =>
    injection h with h
    injection h with _ hb'
    subst hb'
    exact readQnameGo_ok_pos _ _ _ _ _ _ _ _ _ _ _ hgo (fun hj => nomatch hj)
  next e p1 j1 hgo => cases h

theorem write_ok_pos {b b' : BytePacketBuffer} {v : Nat} (h : b.write v = .ok b') :
    b'.pos ≤ 512 := by
  unfold BytePacketBuffer.write at h
  split at h
  · cases h
  next hp =>
    injection h with h
    subst h
    show b.pos + 1 ≤ 512
    omega

theorem read_u8_ok_pos {b b' : BytePacketBuffer} {v : Nat} (h : b.read_u8 = .ok (v, b')) :
    b'.pos ≤ 512 := by
  unfold BytePacketBuffer.read_u8 at h
  split at h
  · cases h
  next hp =>
    injection h with h
    injection h with _ h
    subst h
    show b.pos + 1 ≤ 512
    omega





/- ------------------------------------------------------------------ -/
/- The claims.                                                         -/
/- ------------------------------------------------------------------ -/

/-- C1 (amended): for every well-formed DnsMessage built from the five
    supported record types — names that are dot-separated sequences of
    non-empty ASCII labels of at most 63 octets, no UNKNOWN records, fields
    within machine ranges — if encoding into a fresh buffer succeeds, then
    decoding the buffer from position 0 yields the original message with
    the header section counts normalized to the vector lengths and every
    name lowercased.  (The unamended claim also admitted UNKNOWN records on
    the input side; the counterexample shows those break the round trip,
    because DNSPacket::write counts them in the header but emits no octets
    for them.) -/
theorem C1_roundtrip (p : DNSPacket) (hg : goodPacket p)
    (hw : exceptOk (DNSPacket.write p BytePacketBuffer.new) = true) :
    reDecode p = some (lowerPacket (normalizeCounts p)) :=
  roundtrip_modulo p hg hw

theorem C1_roundtrip_witness :
    goodPacket witnessPacket ∧
    exceptOk (DNSPacket.write witnessPacket BytePacketBuffer.new) = true ∧
    reDecode witnessPacket = some (lowerPacket (normalizeCounts witnessPacket)) :=
  ⟨by decide, by decide, C1_roundtrip witnessPacket (by decide) (by decide)⟩

/-- C1 counterexample: a message with one UNKNOWN answer record re-decodes
    to a message containing a garbage UNKNOWN record read from the bytes
    the encoder never wrote, which differs from the original message with
    its UNKNOWN records dropped (under either order of count normalization
    and dropping), so the round-trip law as stated fails. -/
theorem C1_counterexample :
    reDecode cexPacket = some { DNSPacket.new with
      header := { DNSHeader.new with answers := 1 },
      answers := [.UNKNOWN [] 0 0 0] } ∧
    (dropUnknown (normalizeCounts cexPacket)).answers = [] ∧
    reDecode cexPacket ≠ some (lowerPacket (dropUnknown (normalizeCounts cexPacket))) ∧
    reDecode cexPacket ≠ some (dropUnknown (lowerPacket (normalizeCounts cexPacket))) := by
  refine ⟨by decide, by decide, by decide, by decide⟩

/-- C2: on every 512-octet buffer and every starting cursor, read_qname
    (the loop readQnameGo as entered by BytePacketBuffer.read_qname) either
    fails with JumpLimit having followed exactly 6 pointer hops — so a name
    requiring more than 5 hops always fails — or terminates (never by fuel
    exhaustion) having followed at most 5 hops, so a name needing at most 5
    hops is never rejected by the hop limit. -/
theorem C2_jump_limit (b : BytePacketBuffer) (hoct : ∀ i, b.buf i < 256)
    (out : List Nat) :
    (qnameErr (readQnameGo b.buf readQnameFuel b.pos false 0 b.pos out []) =
        some DnsError.jumpLimit ∧
      qnameJumps (readQnameGo b.buf readQnameFuel b.pos false 0 b.pos out []) = 6) ∨
    (qnameErr (readQnameGo b.buf readQnameFuel b.pos false 0 b.pos out []) ≠
        some DnsError.jumpLimit ∧
      qnameErr (readQnameGo b.buf readQnameFuel b.pos false 0 b.pos out []) ≠
        some DnsError.fuelOut ∧
      qnameJumps (readQnameGo b.buf readQnameFuel b.pos false 0 b.pos out []) ≤ 5) := by
  have h := readQnameGo_invariant readQnameFuel b.buf b.pos false 0 b.pos out []
    (by omega) (by unfold readQnameFuel; omega)
  rcases h with ⟨he, hj⟩ | ⟨he, hf, _, hj⟩
  · exact Or.inl ⟨he, hj⟩
  · exact Or.inr ⟨he, hf, hj⟩

theorem C2_jump_limit_witness :
    (qnameErr (readQnameGo BytePacketBuffer.new.buf readQnameFuel BytePacketBuffer.new.pos
        false 0 BytePacketBuffer.new.pos [] []) = some DnsError.jumpLimit ∧
      qnameJumps (readQnameGo BytePacketBuffer.new.buf readQnameFuel BytePacketBuffer.new.pos
        false 0 BytePacketBuffer.new.pos [] []) = 6) ∨
    (qnameErr (readQnameGo BytePacketBuffer.new.buf readQnameFuel BytePacketBuffer.new.pos
        false 0 BytePacketBuffer.new.pos [] []) ≠ some DnsError.jumpLimit ∧
      qnameErr (readQnameGo BytePacketBuffer.new.buf readQnameFuel BytePacketBuffer.new.pos
        false 0 BytePacketBuffer.new.pos [] []) ≠ some DnsError.fuelOut ∧
      qnameJumps (readQnameGo BytePacketBuffer.new.buf readQnameFuel BytePacketBuffer.new.pos
        false 0 BytePacketBuffer.new.pos [] []) ≤ 5) :=
  C2_jump_limit BytePacketBuffer.new (fun _ => (by decide : (0 : Nat) < 256)) []

/-- C3 (amended): peek_many(start, len) succeeds returning the len octets
    at start exactly when start + len < 512, and fails with OutOfBounds
    when start + len ≥ 512; in particular a call with start + len = 512 —
    reading up to and including the final octet — fails.  (The unamended
    claim stated the bound start + len ≤ 512 with 512 succeeding.) -/
theorem C3_peek_many (b : BytePacketBuffer) (start len : Nat) :
    (start + len < 512 →
      b.peek_many start len = .ok ((List.range len).map fun i => b.buf (start + i))) ∧
    (start + len ≥ 512 → b.peek_many start len = .error .outOfBounds) := by
  unfold BytePacketBuffer.peek_many
  constructor
  · intro h
    rw [if_neg (by omega)]
  · intro h
    rw [if_pos (by omega)]

theorem C3_peek_many_witness :
    BytePacketBuffer.peek_many BytePacketBuffer.new 0 2 = .ok [0, 0] ∧
    BytePacketBuffer.peek_many BytePacketBuffer.new 510 2 = .error .outOfBounds := by
  constructor
  · have := (C3_peek_many BytePacketBuffer.new 0 2).1 (by decide)
    simpa using this
  · exact (C3_peek_many BytePacketBuffer.new 510 2).2 (by decide)

/-- C3 counterexample: the call peek_many(511, 1) satisfies the claimed
    bound 511 + 1 ≤ 512 yet fails with OutOfBounds, because the source
    checks start + len ≥ 512 (strictly excluding the final octet). -/
theorem C3_counterexample :
    511 + 1 ≤ 512 ∧
    BytePacketBuffer.peek_many BytePacketBuffer.new 511 1 = .error .outOfBounds :=
  ⟨by decide, rfl⟩

/-- C4: the claim says set_u8_at with pos = 512 returns the OutOfBounds
    error; in the code the guard is pos > 512, so pos = 512 passes the
    guard and the array indexing self.buf[pos] panics (the embedding's
    panicked outcome), contradicting the spec statement that every
    overrunning write fails with OutOfBounds. -/
theorem C4_set_u8_at_panics :
    BytePacketBuffer.set_u8_at BytePacketBuffer.new 512 7 = .error .panicked ∧
    DnsError.panicked ≠ DnsError.outOfBounds :=
  ⟨rfl, by decide⟩

/-- C5 (amended): starting from pos ≤ 512, every successful read_u8,
    read_u16, read_u32, write, write_u8, write_u16, write_u32, write_qname
    and read_qname call leaves pos ≤ 512, and set_u8_at / set_u16_at leave
    pos unchanged; but skip and set_position perform no bounds check at
    all, so they can move pos past 512 (the counterexample), contrary to
    the unamended claim that every operation preserves pos ∈ [0, 512]. -/
theorem C5_pos_invariant (b : BytePacketBuffer) (hb : b.pos ≤ 512) :
    (∀ v b', b.read_u8 = .ok (v, b') → b'.pos ≤ 512) ∧
    (∀ v b', b.read_u16 = .ok (v, b') → b'.pos ≤ 512) ∧
    (∀ v b', b.read_u32 = .ok (v, b') → b'.pos ≤ 512) ∧
    (∀ v b', b.write v = .ok b' → b'.pos ≤ 512) ∧
    (∀ v b', b.write_u8 v = .ok b' → b'.pos ≤ 512) ∧
    (∀ v b', b.write_u16 v = .ok b' → b'.pos ≤ 512) ∧
    (∀ v b', b.write_u32 v = .ok b' → b'.pos ≤ 512) ∧
    (∀ n b', b.write_qname n = .ok b' → b'.pos ≤ 512) ∧
    (∀ out o b', b.read_qname out = .ok (o, b') → b'.pos ≤ 512) ∧
    (∀ p v b', b.set_u8_at p v = .ok b' → b'.pos = b.pos) ∧
    (∀ p v b', b.set_u16_at p v = .ok b' → b'.pos = b.pos) := by
  refine ⟨?_, ?_, ?_, ?_, ?_, ?_, ?_, ?_, ?_, ?_, ?_⟩
  · intro v b' h
    exact read_u8_ok_pos h
  · intro v b' h
    unfold BytePacketBuffer.read_u16 at h
    split at h
    · cases h
    next hi b1 h1 =>
      split at h
      · cases h
      next lo b2 h2 =>
        injection h with h
        injection h with _ h
        subst h
        exact read_u8_ok_pos h2
  · intro v b' h
    unfold BytePacketBuffer.read_u32 at h
    split at h
    · cases h
    next v0 b1 h1 =>
      split at h
      · cases h
      next v1 b2 h2 =>
        split at h
        · cases h
        next v2 b3 h3 =>
          split at h
          · cases h
          next v3 b4 h4 =>
            injection h with h
            injection h with _ h
            subst h
            exact read_u8_ok_pos h4
  · intro v b' h
    exact write_ok_pos h
  · intro v b' h
    exact write_ok_pos h
  · intro v b' h
    unfold BytePacketBuffer.write_u16 at h
    split at h
    · cases h
    next b1 h1 => exact write_ok_pos h
  · intro v b' h
    unfold BytePacketBuffer.write_u32 at h
    split at h
    · cases h
    next b1 h1 =>
      split at h
      · cases h
      next b2 h2 =>
        split at h
        · cases h
        next b3 h3 => exact write_ok_pos h
  · intro n b' h
    unfold BytePacketBuffer.write_qname at h
    split at h
    · cases h
    next b1 h1 => exact write_ok_pos h
  · intro out o b' h
    exact read_qname_ok_pos h
  · intro p v b' h
    exact (set_u8_at_spec h).2.1
  · intro p v b' h
    exact (set_u16_at_spec h).2.1

theorem C5_pos_invariant_witness :
    BytePacketBuffer.new.pos ≤ 512 ∧
    ({ buf := BytePacketBuffer.new.buf, pos := BytePacketBuffer.new.pos + 1 } :
      BytePacketBuffer).pos ≤ 512 :=
  ⟨by decide, (C5_pos_invariant BytePacketBuffer.new (by decide)).1
    (BytePacketBuffer.new.buf BytePacketBuffer.new.pos) _ rfl⟩

/-- C5 counterexample: skip performs no bounds check, so from the fresh
    buffer (pos = 0 ≤ 512) skipping 600 octets succeeds and leaves
    pos = 600 > 512. -/
theorem C5_counterexample :
    BytePacketBuffer.new.pos ≤ 512 ∧
    bufPosOf (BytePacketBuffer.skip BytePacketBuffer.new 600) = some 600 ∧
    600 > 512 :=
  ⟨by decide, rfl, by decide⟩

/-- C6: in the loop of recursive_lookup, as soon as a query returns a
    response whose rescode is NXDOMAIN, that response is returned
    immediately and exactly one query (the one that produced it) was issued
    from that point: no further nameserver queries and no recursive
    sub-resolutions happen. -/
theorem C6_nxdomain_short_circuit (oracle : LookupOracle) (fuel : Nat)
    (qname : List Nat) (qtype : QueryType) (ns : Ipv4Addr) (resp : DNSPacket)
    (hfuel : 0 < fuel)
    (hq : oracle qname qtype ns = .ok resp)
    (hnx : resp.header.rescode = .NXDOMAIN) :
    recursiveLookupGo oracle fuel qname qtype ns = (.ok resp, 1) := by
  cases fuel with
  | zero => omega
  | succ fz =>
    simp only [recursiveLookupGo]
    rw [hq]
    dsimp only
    rw [if_neg (fun hc => by rw [hnx] at hc; exact ResultCode.noConfusion hc.2)]
    rw [if_pos hnx]

theorem C6_nxdomain_short_circuit_witness :
    recursiveLookupGo (fun _ _ _ => .ok nxPacket) 1 [] .A rootNs = (.ok nxPacket, 1) :=
  C6_nxdomain_short_circuit (fun _ _ _ => .ok nxPacket) 1 [] .A rootNs nxPacket
    (by decide) rfl rfl

/-- C7: for every 16-bit n, QueryType::from_num(n) followed by to_num
    returns n again. -/
theorem C7_querytype_roundtrip (n : Nat) (hn : n < 65536) :
    (QueryType.from_num n).to_num = n := by
  unfold QueryType.from_num
  split_ifs with h1 h2 h3 h4 h5 <;> simp [QueryType.to_num] <;> omega

theorem C7_querytype_roundtrip_witness :
    (QueryType.from_num 28).to_num = 28 :=
  C7_querytype_roundtrip 28 (by decide)

/-- C8: handle_query always sets id to the request id and response,
    recursion_desired, recursion_available to true; a request with no
    questions yields FORMERR; if resolution of the (popped) question fails
    the response carries SERVFAIL; on success the response carries the
    rescode, answers, authorities and additionals that resolve returned. -/
theorem C8_handle_query (request : DNSPacket)
    (resolve : List Nat → QueryType → Except DnsError DNSPacket) :
    (handle_query request resolve).header.id = request.header.id ∧
    (handle_query request resolve).header.response = true ∧
    (handle_query request resolve).header.recursion_desired = true ∧
    (handle_query request resolve).header.recursion_available = true ∧
    (request.questions = [] →
      (handle_query request resolve).header.rescode = .FORMERR) ∧
    (∀ q, request.questions.getLast? = some q →
      (∀ e, resolve q.name q.qtype = .error e →
        (handle_query request resolve).header.rescode = .SERVFAIL) ∧
      (∀ result, resolve q.name q.qtype = .ok result →
        (handle_query request resolve).header.rescode = result.header.rescode ∧
        (handle_query request resolve).answers = result.answers ∧
        (handle_query request resolve).authorities = result.authorities ∧
        (handle_query request resolve).resources = result.resources)) := by
  unfold handle_query
  cases hlast : request.questions.getLast? with
  | none =>
    dsimp only
    refine ⟨rfl, rfl, rfl, rfl, fun _ => rfl, ?_⟩
    intro q hq
    exact nomatch hq
  | some q0 =>
    dsimp only
    cases hres : resolve q0.name q0.qtype with
    | error e0 =>
      dsimp only
      refine ⟨rfl, rfl, rfl, rfl, ?_, ?_⟩
      · intro hempty
        rw [hempty] at hlast
        exact nomatch hlast
      · intro q hq
        injection hq with hq
        subst hq
        constructor
        · intro e he
          rfl
        · intro result hr
          rw [hres] at hr
          cases hr
    | ok result0 =>
      dsimp only
      refine ⟨rfl, rfl, rfl, rfl, ?_, ?_⟩
      · intro hempty
        rw [hempty] at hlast
        exact nomatch hlast
      · intro q hq
        injection hq with hq
        subst hq
        constructor
        · intro e he
          rw [hres] at he
          cases he
        · intro result hr
          rw [hres] at hr
          injection hr with hr
          subst hr
          exact ⟨rfl, rfl, rfl, rfl⟩

theorem C8_handle_query_witness :
    (handle_query DNSPacket.new (fun _ _ => .error .outOfBounds)).header.rescode =
      .FORMERR :=
  (C8_handle_query DNSPacket.new (fun _ _ => .error .outOfBounds)).2.2.2.2.1 rfl

/-- C9: in a buffer whose octets at offset 12 are 03 'f' 'o' 'o' 00 and at
    offset 20 are C0 0C, read_qname with the cursor at 20 returns the name
    "foo" (bytes 102 111 111) and leaves the cursor at exactly 22, two
    octets past where it started, regardless of where the pointer led. -/
theorem C9_decompression :
    BytePacketBuffer.read_qname ⟨c9buf, 20⟩ [] =
      .ok ([102, 111, 111], ⟨c9buf, 22⟩) := by
  rfl

/-- C10: write_qname applied to the empty name writes exactly two zero
    octets (a zero-length label for the empty split segment, then the
    terminating zero) instead of the single zero octet of the wire-format
    root name, and re-decoding what it wrote consumes only the first of the
    two octets (yielding the empty name with the cursor at 1, not 2). -/
theorem C10_write_qname_empty :
    bufPosOf (BytePacketBuffer.write_qname BytePacketBuffer.new []) = some 2 ∧
    bufByteOf (BytePacketBuffer.write_qname BytePacketBuffer.new []) 0 = some 0 ∧
    bufByteOf (BytePacketBuffer.write_qname BytePacketBuffer.new []) 1 = some 0 ∧
    reReadFirstName (BytePacketBuffer.write_qname BytePacketBuffer.new []) =
      some ([], 1) :=
  ⟨rfl, rfl, rfl, rfl⟩

end Signpost

